import Mathlib

/-!
Verification development for the `oxc_traverse` code generator.

The repository's source (`generateAncestorsCode`, `generateWalkFunctionsCode`,
`generateTraverseTraitCode` in the generator scripts) takes a catalogue of AST
type definitions (parsed by `parse.mjs`) and emits Rust code: an `Ancestor`
tagged union with one variant per (struct type, field) pair, per-tag sibling
accessors computed from field offsets, and per-type `walk_*` functions that
drive a `Traverse` visitor while maintaining an ancestor stack.

This file shallowly embeds:
  * the type catalogue (`TypeDef`, `Field`, `Variant`) as parsed by `parse.mjs`;
  * the generator's per-field wrapper dispatch (`fieldPlan`), its inheritance
    closure for enums (`inheritClosureStep`), its assertion behaviour
    (`structWalkGenOk`, `enumWalkGenOk`, `generateWalkOk`), and its ancestor
    discriminant assignment (`ancestorTagFields`, `ancestorEnumDiscriminants`)
    and sibling accessors (`accessorsFor`);
  * the runtime behaviour of the generated `walk_*` functions as a fuel-indexed
    interpreter (`walkType` and friends) over a tree of `Value`s, producing a
    trace of hook and stack events and threading the ancestor stack.

The semantics of the `TraverseCtx` stack primitives `push_stack` / `retag_stack`
/ `pop_stack` are not under `src/`; they are modelled from the spec: push adds
an entry on top, retag replaces the tag of the top entry in place, pop removes
the top entry.
-/

namespace OxcTraverse

/-- Wrapper applied to a field's element type (`Option<...>`, `Vec<...>`,
`Box<...>` in the catalogue's declared Rust types). -/
inductive Wrapper where
  | option : Wrapper
  | vec : Wrapper
  | box : Wrapper
deriving DecidableEq, Repr

/-- A struct field as parsed by `parse.mjs`: its snake-case name, the ordered
wrapper chain of its declared type, and the unwrapped element type name. -/
structure Field where
  name : String
  wrappers : List Wrapper
  innerTypeName : String
deriving DecidableEq, Repr

/-- A struct type of the catalogue: name and ordered field list. -/
structure StructType where
  name : String
  fields : List Field
deriving DecidableEq, Repr

/-- An enum variant: its name, the wrapper chain of its payload type, and the
unwrapped payload type name. -/
structure Variant where
  name : String
  wrappers : List Wrapper
  innerTypeName : String
deriving DecidableEq, Repr

/-- An enum type of the catalogue: name, ordered own variants, and the list of
`@inherit`ed base enum names. -/
structure EnumType where
  name : String
  variants : List Variant
  inherits : List String
deriving DecidableEq, Repr

/-- One entry of the type catalogue. -/
inductive TypeDef where
  | struct : StructType → TypeDef
  | enum : EnumType → TypeDef
deriving DecidableEq, Repr

/-- The name of a catalogue entry. -/
def TypeDef.defName : TypeDef → String
  | TypeDef.struct s => s.name
  | TypeDef.enum e => e.name

/-- Catalogue lookup (`types[name]` in the generator; the catalogue is an
ordered name-keyed map, modelled as an ordered list searched by name). -/
def findType (types : List TypeDef) (n : String) : Option TypeDef :=
  types.find? (fun t => t.defName = n)

/-- `name in types`: the visited-field test of `generateWalkForStruct` and the
field-type test of `generateAncestorsCode`. -/
def isCatalogued (types : List TypeDef) (n : String) : Bool :=
  (findType types n).isSome

/-- `visitedFields = type.fields.filter(field => unwrapTypeName(field.type) in types)`. -/
def visitedFieldsOf (types : List TypeDef) (s : StructType) : List Field :=
  s.fields.filter (fun f => isCatalogued types f.innerTypeName)

/-- Modelled from the spec: `snakeToCamel` lives in the generator's `utils.mjs`
which is not among the provided sources.  Per the spec's scenario (field
`left` yields tag `Left`) and the generated variant names
(`${type.name}${fieldNameCamel}`), it capitalizes the first letter and each
letter following an underscore and drops the underscores. -/
def snakeToCamelChars : Bool → List Char → List Char
  | _, [] => []
  | cap, c :: rest =>
    if c = '_' then snakeToCamelChars true rest
    else (if cap then c.toUpper else c) :: snakeToCamelChars false rest

/-- String-level wrapper around `snakeToCamelChars`. -/
def snakeToCamel (s : String) : String := String.mk (snakeToCamelChars true s.data)

/-- An ancestor tag: identifies the `Ancestor` enum variant
`${type.name}${fieldNameCamel}`, i.e. a (struct type, field) pair. -/
structure Tag where
  typeName : String
  fieldCamelName : String
deriving DecidableEq, Repr

/-- The ancestor tag for field `fieldName` of struct `typeName`. -/
def tagFor (typeName fieldName : String) : Tag :=
  Tag.mk typeName (snakeToCamel fieldName)

/-- Observable events of a traversal: visitor hooks and ancestor-stack
operations, in the order the generated code performs them. -/
inductive Event where
  | enter : String → Event
  | exit : String → Event
  | enterStatements : Event
  | exitStatements : Event
  | push : Tag → Event
  | retag : Tag → Event
  | pop : Event
deriving DecidableEq, Repr

/-- A runtime tree value.  `structVal` carries one entry per declared field in
declaration order; wrapper layers (`Option`, `Vec`, `Box`) are explicit
constructors so a field's stored value mirrors its declared wrapper chain. -/
inductive Value where
  | structVal : String → List Value → Value
  | enumVal : String → String → Value → Value
  | boxVal : Value → Value
  | someVal : Value → Value
  | noneVal : Value
  | vecVal : List Value → Value
  | terminal : Value
deriving Repr

/-- A visitor: the `Traverse` trait surface.  Each hook receives mutable access
to the node (modelled as a function from the old to the new value); the two
statement hooks receive the statement list. -/
structure Visitor where
  enterHook : String → Value → Value
  exitHook : String → Value → Value
  enterStatementsHook : List Value → List Value
  exitStatementsHook : List Value → List Value

/-- The default visitor: every generated `Traverse` method has an empty body
(`generateTraverseTraitCode`), so every hook leaves the node unchanged. -/
def defaultVisitor : Visitor :=
  Visitor.mk (fun _ v => v) (fun _ v => v) (fun xs => xs) (fun xs => xs)

/-- The code shape `generateWalkForStruct` emits for one visited field,
determined by the field's wrapper chain (and the `Statement` special cases). -/
inductive FieldPlan where
  | optVecStmt : FieldPlan
  | optVec : FieldPlan
  | optBox : FieldPlan
  | optPlain : FieldPlan
  | vecStmt : FieldPlan
  | vecOpt : FieldPlan
  | vecPlain : FieldPlan
  | box : FieldPlan
  | plain : FieldPlan
deriving DecidableEq, Repr

/-- The wrapper dispatch of `generateWalkForStruct`: `Option<...>` first
(`Option<Vec<T>>` with the `Statement` special case, `Option<Box<T>>`, bare
`Option<T>`, anything else asserts), then `Vec<...>` (`Vec<Statement>` special
case, `Vec<Option<T>>` via `.flatten()`, bare `Vec<T>`, anything else asserts),
then exactly `Box<T>`, then no wrappers; any other chain hits an
`assert(..., "Cannot handle struct field with type ...")` and `none` models
that generation-time abort. -/
def fieldPlan (wrappers : List Wrapper) (innerTypeName : String) : Option FieldPlan :=
  match wrappers with
  | Wrapper.option :: rest =>
    match rest with
    | [Wrapper.vec] =>
      some (if innerTypeName = "Statement" then FieldPlan.optVecStmt else FieldPlan.optVec)
    | [Wrapper.box] => some FieldPlan.optBox
    | [] => some FieldPlan.optPlain
    | _ => none
  | Wrapper.vec :: rest =>
    match rest with
    | [] => some (if innerTypeName = "Statement" then FieldPlan.vecStmt else FieldPlan.vecPlain)
    | [Wrapper.option] => some FieldPlan.vecOpt
    | _ => none
  | [Wrapper.box] => some FieldPlan.box
  | [] => some FieldPlan.plain
  | _ => none

/-- The inheritance worklist loop of `generateWalkForEnum`: starting from one
inherited type name, repeatedly take the next name; if it is not a catalogued
enum append it to `missingVariants`, otherwise append its variant names to the
match arm and enqueue its own `inherits`.  Fuel bounds the loop (the source
loop has no cycle protection); `none` means fuel ran out. -/
def inheritClosureStep (types : List TypeDef) :
    Nat → List String → List String → List String → Option (List String × List String)
  | 0, _, _, _ => none
  | _ + 1, [], names, missing => some (names, missing)
  | fuel + 1, tn :: rest, names, missing =>
    match findType types tn with
    | some (TypeDef.enum e) =>
      inheritClosureStep types fuel (rest ++ e.inherits)
        (names ++ e.variants.map (fun vr => vr.name)) missing
    | _ => inheritClosureStep types fuel rest names (missing ++ [tn])

/-- For each directly inherited base name, the pair (base name, transitively
collected variant names), in declaration order — the fallthrough match arms of
`generateWalkForEnum`.  `none` if fuel ran out or some closure reported a
missing base (in which case the generator's
`assert(missingVariants.length === 0)` aborts and no walk function exists). -/
def enumInheritArms (types : List TypeDef) (fuel : Nat) :
    List String → Option (List (String × List String))
  | [] => some []
  | b :: rest =>
    match inheritClosureStep types fuel [b] [] [] with
    | some (names, missing) =>
      if missing.isEmpty then
        match enumInheritArms types fuel rest with
        | some arms => some ((b, names) :: arms)
        | none => none
      else none
    | none => none

/-- Accumulates `missingVariants` across all directly inherited bases of an
enum, as `generateWalkForEnum` does before its final assertion.  `none` if
fuel ran out. -/
def collectEnumMissing (types : List TypeDef) (fuel : Nat) :
    List String → Option (List String)
  | [] => some []
  | b :: rest =>
    match inheritClosureStep types fuel [b] [] [] with
    | some (_, missing) =>
      match collectEnumMissing types fuel rest with
      | some m => some (missing ++ m)
      | none => none
    | none => none

/-- Whether `generateWalkForStruct` succeeds for struct `s`: every visited
field's wrapper chain must be one the generator handles (otherwise an
assertion aborts generation). -/
def structWalkGenOk (types : List TypeDef) (s : StructType) : Bool :=
  (visitedFieldsOf types s).all (fun f => (fieldPlan f.wrappers f.innerTypeName).isSome)

/-- Whether one own enum variant passes `generateWalkForEnum`'s assertions: its
payload type must be catalogued and its wrapper chain empty or exactly `Box`. -/
def variantOk (types : List TypeDef) (vr : Variant) : Bool :=
  isCatalogued types vr.innerTypeName &&
    (decide (vr.wrappers = []) || decide (vr.wrappers = [Wrapper.box]))

/-- Whether `generateWalkForEnum` succeeds for enum `e`: all own variants pass
and the accumulated `missingVariants` list is empty.  `none` if the closure
fuel ran out. -/
def enumWalkGenOk (types : List TypeDef) (fuel : Nat) (e : EnumType) : Option Bool :=
  match collectEnumMissing types fuel e.inherits with
  | some missing => some (e.variants.all (variantOk types) && missing.isEmpty)
  | none => none

/-- Per-type generation success. -/
def typeWalkGenOk (types : List TypeDef) (fuel : Nat) : TypeDef → Option Bool
  | TypeDef.struct s => some (structWalkGenOk types s)
  | TypeDef.enum e => enumWalkGenOk types fuel e

/-- Whether `generateWalkFunctionsCode` succeeds for the whole catalogue: a
single failed assertion in any per-type generation aborts the generator. -/
def generateWalkOk (types : List TypeDef) (fuel : Nat) : Option Bool :=
  types.foldr
    (fun t acc =>
      match typeWalkGenOk types fuel t, acc with
      | some b, some c => some (b && c)
      | _, _ => none)
    (some true)

/-- The (struct type, field) tags of the generated `Ancestor` enum, in
generation order: struct catalogue entries in declaration order (enums are
skipped), and within a struct the fields whose inner type is catalogued, in
declaration order (`generateAncestorsCode`). -/
def ancestorTagFields (types : List TypeDef) : List Tag :=
  (types.map (fun t =>
    match t with
    | TypeDef.struct s =>
      (visitedFieldsOf types s).map (fun f => tagFor s.name f.name)
    | TypeDef.enum _ => [])).flatten

/-- The generated `Ancestor` enum's (tag, discriminant) pairs: the root variant
`None = 0` followed by each field tag with the next consecutive discriminant
starting at 1 (`discriminant++` in `generateAncestorsCode`). -/
def ancestorEnumDiscriminants (types : List TypeDef) : List (Option Tag × Nat) :=
  (none, 0) :: (ancestorTagFields types).enum.map (fun p => (some p.2, p.1 + 1))

/-- The underlying representation chosen for the discriminant:
`discriminant <= 256 ? 'u8' : 'u16'`, where the final value of `discriminant`
is one more than the number of field tags, i.e. the total number of `Ancestor`
variants including the root. -/
def ancestorDiscriminantType (types : List TypeDef) : String :=
  if (ancestorTagFields types).length + 1 ≤ 256 then "u8" else "u16"

/-- The sibling accessors generated for the tag of field index `gi` of struct
`s` (`${type.name}Without${fieldNameCamel}`): one accessor per other field
(every field except the one at `gi`, including fields of non-catalogued type),
each returning the struct base address plus that field's byte offset
(`(self.0 as *const u8).add(OFFSET_..)`).  `offsets` abstracts the
`offset_of!`-computed field offset table. -/
def accessorsFor (offsets : String → String → Nat) (s : StructType) (gi : Nat) :
    List (String × Nat) :=
  ((s.fields.enum.filter (fun p => p.1 ≠ gi)).map
    (fun p => (p.2.name, offsets s.name p.2.name)))

/-- The address an accessor yields: the struct's base address plus the field's
statically computed byte offset. -/
def accessorAddr (base off : Nat) : Nat := base + off

/-- The `retag_stack` step guarding each field's code: the first visited field
(index 0) was just pushed, so no retag is emitted; every subsequent field emits
`ctx.retag_stack(discriminant)`, which replaces the tag of the top-of-stack
entry in place.  Modelled from the spec: `retag_stack` itself is part of
`TraverseCtx`, which is not among the provided sources; the spec says it
"retags the top-of-stack entry in place (avoiding a pop+push pair)". -/
def applyRetag (tag : Tag) (vIdx : Nat) (stack : List Tag) :
    Option (List Event × List Tag) :=
  if vIdx = 0 then some ([], stack)
  else
    match stack with
    | [] => none
    | _ :: rest => some ([Event.retag tag], tag :: rest)

mutual

/-- Interpreter for the generated `walk_<type>` functions.  `fuel` bounds
recursion depth (`none` = fuel exhausted, or a node whose shape does not match
the catalogue — impossible for the typed generated Rust, and likewise an
input on which a generation-time assertion would have fired so that no walk
function exists).  Returns the event trace, the resulting (possibly
visitor-mutated) value, and the resulting ancestor stack.

Struct case (`generateWalkForStruct`): `enter` hook; if the struct has at
least one visited field, push the ancestor tag of the first visited field;
the per-field codes (`walkFieldsList`); `ctx.pop_stack()`; `exit` hook.

Enum case (`generateWalkForEnum`): `enter` hook; match on the variant — own
variants first, each dispatching to the payload type's walk function
(dereferencing a `Box` payload once), then one fallthrough arm per directly
inherited base matching that base's transitively collected variant names and
dispatching the same node to the base's walk function; `exit` hook. -/
def walkType (types : List TypeDef) (vis : Visitor) :
    Nat → String → Value → List Tag → Option (List Event × Value × List Tag)
  | 0, _, _, _ => none
  | fuel + 1, typeName, v, stack =>
    match findType types typeName with
    | some (TypeDef.struct s) =>
      match vis.enterHook s.name v with
      | Value.structVal vn vals =>
        if vals.length = s.fields.length then
          match visitedFieldsOf types s with
          | [] =>
            some ([Event.enter s.name, Event.exit s.name],
                  vis.exitHook s.name (Value.structVal vn vals), stack)
          | f0 :: _ =>
            match walkFieldsList types vis fuel s.name (s.fields.zip vals) 0
                (tagFor s.name f0.name :: stack) with
            | some (trF, vals2, stack2) =>
              match stack2 with
              | _ :: stack3 =>
                some (Event.enter s.name :: Event.push (tagFor s.name f0.name) ::
                        (trF ++ [Event.pop, Event.exit s.name]),
                      vis.exitHook s.name (Value.structVal vn vals2), stack3)
              | [] => none
            | none => none
        else none
      | _ => none
    | some (TypeDef.enum e) =>
      match vis.enterHook e.name v with
      | Value.enumVal vn variantName payload =>
        match e.variants.find? (fun vr => vr.name = variantName) with
        | some variant =>
          if isCatalogued types variant.innerTypeName then
            match variant.wrappers, payload with
            | [], p =>
              match walkType types vis fuel variant.innerTypeName p stack with
              | some (trP, p2, st2) =>
                some (Event.enter e.name :: (trP ++ [Event.exit e.name]),
                      vis.exitHook e.name (Value.enumVal vn variantName p2), st2)
              | none => none
            | [Wrapper.box], Value.boxVal x =>
              match walkType types vis fuel variant.innerTypeName x stack with
              | some (trP, x2, st2) =>
                some (Event.enter e.name :: (trP ++ [Event.exit e.name]),
                      vis.exitHook e.name
                        (Value.enumVal vn variantName (Value.boxVal x2)), st2)
              | none => none
            | _, _ => none
          else none
        | none =>
          match enumInheritArms types (fuel + 1) e.inherits with
          | some arms =>
            match arms.find? (fun a => a.2.contains variantName) with
            | some (baseName, _) =>
              match walkType types vis fuel baseName
                  (Value.enumVal vn variantName payload) stack with
              | some (trB, v2, st2) =>
                some (Event.enter e.name :: (trB ++ [Event.exit e.name]),
                      vis.exitHook e.name v2, st2)
              | none => none
            | none => none
          | none => none
      | _ => none
    | none => none

/-- The concatenated per-field codes of `generateWalkForStruct`, over the
(catalogue field, stored value) pairs.  `vIdx` counts visited fields already
processed (index 0 is the pushed one); non-visited fields are skipped with no
events, exactly as they are filtered out before code generation. -/
def walkFieldsList (types : List TypeDef) (vis : Visitor) :
    Nat → String → List (Field × Value) → Nat → List Tag →
      Option (List Event × List Value × List Tag)
  | 0, _, _, _, _ => none
  | _ + 1, _, [], _, stack => some ([], [], stack)
  | fuel + 1, sName, (f, fv) :: rest, vIdx, stack =>
    if isCatalogued types f.innerTypeName then
      match fieldPlan f.wrappers f.innerTypeName with
      | some plan =>
        match walkField types vis fuel sName plan f.innerTypeName
            (tagFor sName f.name) vIdx fv stack with
        | some (tr1, fv2, stack1) =>
          match walkFieldsList types vis fuel sName rest (vIdx + 1) stack1 with
          | some (tr2, fvs2, stack2) => some (tr1 ++ tr2, fv2 :: fvs2, stack2)
          | none => none
        | none => none
      | none => none
    else
      match walkFieldsList types vis fuel sName rest vIdx stack with
      | some (tr2, fvs2, stack2) => some (tr2, fv :: fvs2, stack2)
      | none => none

/-- The code generated for one visited field, by plan.  For `Option`-headed
plans the retag sits inside the `if let Some` (a `None` field emits nothing at
all); for all other plans the retag precedes the descent unconditionally.
`Vec` plans iterate elements in order (`.flatten()` skips `None` elements of
`Vec<Option<T>>`); `Box` layers are dereferenced once; `Statement` sequences
go through `walk_statements`. -/
def walkField (types : List TypeDef) (vis : Visitor) :
    Nat → String → FieldPlan → String → Tag → Nat → Value → List Tag →
      Option (List Event × Value × List Tag)
  | 0, _, _, _, _, _, _, _ => none
  | fuel + 1, _, plan, inner, tag, vIdx, fv, stack =>
    match plan, fv with
    | FieldPlan.optPlain, Value.noneVal => some ([], Value.noneVal, stack)
    | FieldPlan.optPlain, Value.someVal x =>
      match applyRetag tag vIdx stack with
      | some (trR, stack1) =>
        match walkType types vis fuel inner x stack1 with
        | some (tr, x2, st) => some (trR ++ tr, Value.someVal x2, st)
        | none => none
      | none => none
    | FieldPlan.optBox, Value.noneVal => some ([], Value.noneVal, stack)
    | FieldPlan.optBox, Value.someVal (Value.boxVal x) =>
      match applyRetag tag vIdx stack with
      | some (trR, stack1) =>
        match walkType types vis fuel inner x stack1 with
        | some (tr, x2, st) =>
          some (trR ++ tr, Value.someVal (Value.boxVal x2), st)
        | none => none
      | none => none
    | FieldPlan.optVec, Value.noneVal => some ([], Value.noneVal, stack)
    | FieldPlan.optVec, Value.someVal (Value.vecVal xs) =>
      match applyRetag tag vIdx stack with
      | some (trR, stack1) =>
        match walkElems types vis fuel inner xs stack1 with
        | some (tr, xs2, st) =>
          some (trR ++ tr, Value.someVal (Value.vecVal xs2), st)
        | none => none
      | none => none
    | FieldPlan.optVecStmt, Value.noneVal => some ([], Value.noneVal, stack)
    | FieldPlan.optVecStmt, Value.someVal (Value.vecVal xs) =>
      match applyRetag tag vIdx stack with
      | some (trR, stack1) =>
        match walkStatements types vis fuel xs stack1 with
        | some (tr, xs2, st) =>
          some (trR ++ tr, Value.someVal (Value.vecVal xs2), st)
        | none => none
      | none => none
    | FieldPlan.vecStmt, Value.vecVal xs =>
      match applyRetag tag vIdx stack with
      | some (trR, stack1) =>
        match walkStatements types vis fuel xs stack1 with
        | some (tr, xs2, st) => some (trR ++ tr, Value.vecVal xs2, st)
        | none => none
      | none => none
    | FieldPlan.vecPlain, Value.vecVal xs =>
      match applyRetag tag vIdx stack with
      | some (trR, stack1) =>
        match walkElems types vis fuel inner xs stack1 with
        | some (tr, xs2, st) => some (trR ++ tr, Value.vecVal xs2, st)
        | none => none
      | none => none
    | FieldPlan.vecOpt, Value.vecVal xs =>
      match applyRetag tag vIdx stack with
      | some (trR, stack1) =>
        match walkOptElems types vis fuel inner xs stack1 with
        | some (tr, xs2, st) => some (trR ++ tr, Value.vecVal xs2, st)
        | none => none
      | none => none
    | FieldPlan.box, Value.boxVal x =>
      match applyRetag tag vIdx stack with
      | some (trR, stack1) =>
        match walkType types vis fuel inner x stack1 with
        | some (tr, x2, st) => some (trR ++ tr, Value.boxVal x2, st)
        | none => none
      | none => none
    | FieldPlan.plain, w =>
      match applyRetag tag vIdx stack with
      | some (trR, stack1) =>
        match walkType types vis fuel inner w stack1 with
        | some (tr, w2, st) => some (trR ++ tr, w2, st)
        | none => none
      | none => none
    | _, _ => none

/-- `for item in ... { walk_<inner>(item) }`: walk each element in order. -/
def walkElems (types : List TypeDef) (vis : Visitor) :
    Nat → String → List Value → List Tag →
      Option (List Event × List Value × List Tag)
  | 0, _, _, _ => none
  | _ + 1, _, [], stack => some ([], [], stack)
  | fuel + 1, inner, x :: xs, stack =>
    match walkType types vis fuel inner x stack with
    | some (tr1, x2, st1) =>
      match walkElems types vis fuel inner xs st1 with
      | some (tr2, xs2, st2) => some (tr1 ++ tr2, x2 :: xs2, st2)
      | none => none
    | none => none

/-- `for item in ...iter_mut().flatten()`: walk each present element of a
`Vec<Option<T>>` in order, skipping absent ones. -/
def walkOptElems (types : List TypeDef) (vis : Visitor) :
    Nat → String → List Value → List Tag →
      Option (List Event × List Value × List Tag)
  | 0, _, _, _ => none
  | _ + 1, _, [], stack => some ([], [], stack)
  | fuel + 1, inner, Value.noneVal :: xs, stack =>
    match walkOptElems types vis fuel inner xs stack with
    | some (tr2, xs2, st2) => some (tr2, Value.noneVal :: xs2, st2)
    | none => none
  | fuel + 1, inner, Value.someVal x :: xs, stack =>
    match walkType types vis fuel inner x stack with
    | some (tr1, x2, st1) =>
      match walkOptElems types vis fuel inner xs st1 with
      | some (tr2, xs2, st2) =>
        some (tr1 ++ tr2, Value.someVal x2 :: xs2, st2)
      | none => none
    | none => none
  | _ + 1, _, _ :: _, _ => none

/-- The generated `walk_statements`: `enter_statements` hook, walk each
statement via `walk_statement`, `exit_statements` hook. -/
def walkStatements (types : List TypeDef) (vis : Visitor) :
    Nat → List Value → List Tag → Option (List Event × List Value × List Tag)
  | 0, _, _ => none
  | fuel + 1, xs, stack =>
    match walkElems types vis fuel "Statement" (vis.enterStatementsHook xs) stack with
    | some (tr, xs2, st) =>
      some (Event.enterStatements :: (tr ++ [Event.exitStatements]),
            vis.exitStatementsHook xs2, st)
    | none => none

end

/-- Is this event a push? -/
def isPush : Event → Bool
  | Event.push _ => true
  | _ => false

/-- Is this event a pop? -/
def isPop : Event → Bool
  | Event.pop => true
  | _ => false

/-- Number of `push` events in a trace. -/
def pushCount (tr : List Event) : Nat := tr.countP isPush

/-- Number of `pop` events in a trace. -/
def popCount (tr : List Event) : Nat := tr.countP isPop

/-- Stack invariant of a full walk: the ancestor stack is returned exactly as
received, and pushes and pops in the trace are balanced. -/
def StackPropT (types : List TypeDef) (vis : Visitor) (fuel : Nat) : Prop :=
  ∀ tn v stack tr v2 st, walkType types vis fuel tn v stack = some (tr, v2, st) →
    st = stack ∧ pushCount tr = popCount tr

/-- Stack invariant of the per-field code list: length and tail of the stack
are preserved (the top entry may have been retagged), and the trace is
push/pop balanced. -/
def StackPropL (types : List TypeDef) (vis : Visitor) (fuel : Nat) : Prop :=
  ∀ sN pairs vIdx stack tr vals2 st,
    walkFieldsList types vis fuel sN pairs vIdx stack = some (tr, vals2, st) →
    (st.length = stack.length ∧ st.tail = stack.tail) ∧ pushCount tr = popCount tr

/-- Stack invariant of a single field's code: as for `StackPropL`. -/
def StackPropF (types : List TypeDef) (vis : Visitor) (fuel : Nat) : Prop :=
  ∀ sN plan inner tag vIdx fv stack tr fv2 st,
    walkField types vis fuel sN plan inner tag vIdx fv stack = some (tr, fv2, st) →
    (st.length = stack.length ∧ st.tail = stack.tail) ∧ pushCount tr = popCount tr

/-- Stack invariant of element iteration. -/
def StackPropE (types : List TypeDef) (vis : Visitor) (fuel : Nat) : Prop :=
  ∀ inner xs stack tr xs2 st, walkElems types vis fuel inner xs stack = some (tr, xs2, st) →
    st = stack ∧ pushCount tr = popCount tr

/-- Stack invariant of optional-element iteration. -/
def StackPropO (types : List TypeDef) (vis : Visitor) (fuel : Nat) : Prop :=
  ∀ inner xs stack tr xs2 st, walkOptElems types vis fuel inner xs stack = some (tr, xs2, st) →
    st = stack ∧ pushCount tr = popCount tr

/-- Stack invariant of `walk_statements`. -/
def StackPropS (types : List TypeDef) (vis : Visitor) (fuel : Nat) : Prop :=
  ∀ xs stack tr xs2 st, walkStatements types vis fuel xs stack = some (tr, xs2, st) →
    st = stack ∧ pushCount tr = popCount tr

/-- All six stack invariants at a given fuel. -/
def StackPropAll (types : List TypeDef) (vis : Visitor) (fuel : Nat) : Prop :=
  StackPropT types vis fuel ∧ StackPropL types vis fuel ∧ StackPropF types vis fuel ∧
    StackPropE types vis fuel ∧ StackPropO types vis fuel ∧ StackPropS types vis fuel

lemma stackE_succ {types : List TypeDef} {vis : Visitor} {fuel : Nat}
    (ihT : StackPropT types vis fuel) (ihE : StackPropE types vis fuel) :
    StackPropE types vis (fuel + 1) := by
  intro inner xs stack tr xs2 st h
  cases xs with
  | nil =>
    simp only [walkElems, Option.some.injEq, Prod.mk.injEq] at h
    obtain ⟨h1, _, h3⟩ := h
    subst h1; subst h3
    simp [pushCount, popCount]
  | cons x rest =>
    simp only [walkElems] at h
    cases h1 : walkType types vis fuel inner x stack with
    | none => simp only [h1] at h; exact Option.noConfusion h
    | some r1 =>
      obtain ⟨tr1, x2, st1⟩ := r1
      simp only [h1] at h
      cases h2 : walkElems types vis fuel inner rest st1 with
      | none => simp only [h2] at h; exact Option.noConfusion h
      | some r2 =>
        obtain ⟨tr2, rest2, st2⟩ := r2
        simp only [h2] at h
        simp only [Option.some.injEq, Prod.mk.injEq] at h
        obtain ⟨hTr, _, hSt⟩ := h
        obtain ⟨hst1, hbal1⟩ := ihT _ _ _ _ _ _ h1
        obtain ⟨hst2, hbal2⟩ := ihE _ _ _ _ _ _ h2
        subst hTr; subst hSt; subst hst1; subst hst2
        simp [pushCount, popCount, List.countP_append] at *
        omega

lemma stackO_succ {types : List TypeDef} {vis : Visitor} {fuel : Nat}
    (ihT : StackPropT types vis fuel) (ihO : StackPropO types vis fuel) :
    StackPropO types vis (fuel + 1) := by
  intro inner xs stack tr xs2 st h
  cases xs with
  | nil =>
    simp only [walkOptElems, Option.some.injEq, Prod.mk.injEq] at h
    obtain ⟨h1, _, h3⟩ := h
    subst h1; subst h3
    simp [pushCount, popCount]
  | cons x rest =>
    cases x
    case noneVal =>
      simp only [walkOptElems] at h
      cases h2 : walkOptElems types vis fuel inner rest stack with
      | none => simp only [h2] at h; exact Option.noConfusion h
      | some r2 =>
        obtain ⟨tr2, rest2, st2⟩ := r2
        simp only [h2, Option.some.injEq, Prod.mk.injEq] at h
        obtain ⟨hTr, _, hSt⟩ := h
        obtain ⟨hst2, hbal2⟩ := ihO _ _ _ _ _ _ h2
        subst hTr; subst hSt; subst hst2
        exact ⟨rfl, hbal2⟩
    case someVal y =>
      simp only [walkOptElems] at h
      cases h1 : walkType types vis fuel inner y stack with
      | none => simp only [h1] at h; exact Option.noConfusion h
      | some r1 =>
        obtain ⟨tr1, y2, st1⟩ := r1
        simp only [h1] at h
        cases h2 : walkOptElems types vis fuel inner rest st1 with
        | none => simp only [h2] at h; exact Option.noConfusion h
        | some r2 =>
          obtain ⟨tr2, rest2, st2⟩ := r2
          simp only [h2, Option.some.injEq, Prod.mk.injEq] at h
          obtain ⟨hTr, _, hSt⟩ := h
          obtain ⟨hst1, hbal1⟩ := ihT _ _ _ _ _ _ h1
          obtain ⟨hst2, hbal2⟩ := ihO _ _ _ _ _ _ h2
          subst hTr; subst hSt; subst hst1; subst hst2
          simp [pushCount, popCount, List.countP_append] at *
          omega
    all_goals (simp only [walkOptElems] at h; exact Option.noConfusion h)

lemma stackS_succ {types : List TypeDef} {vis : Visitor} {fuel : Nat}
    (ihE : StackPropE types vis fuel) :
    StackPropS types vis (fuel + 1) := by
  intro xs stack tr xs2 st h
  simp only [walkStatements] at h
  cases h1 : walkElems types vis fuel "Statement" (vis.enterStatementsHook xs) stack with
  | none => simp only [h1] at h; exact Option.noConfusion h
  | some r1 =>
    obtain ⟨tr1, ys, st1⟩ := r1
    simp only [h1, Option.some.injEq, Prod.mk.injEq] at h
    obtain ⟨hTr, _, hSt⟩ := h
    obtain ⟨hst1, hbal1⟩ := ihE _ _ _ _ _ _ h1
    subst hTr; subst hSt; subst hst1
    constructor
    · rfl
    · simp [pushCount, popCount, List.countP_append, List.countP_cons, isPush, isPop] at *
      omega

/-- `applyRetag` preserves stack length and tail, and emits no push or pop. -/
lemma applyRetag_spec {tag : Tag} {vIdx : Nat} {stack : List Tag}
    {trR : List Event} {stack1 : List Tag}
    (h : applyRetag tag vIdx stack = some (trR, stack1)) :
    stack1.length = stack.length ∧ stack1.tail = stack.tail ∧
      pushCount trR = 0 ∧ popCount trR = 0 := by
  unfold applyRetag at h
  by_cases hv : vIdx = 0
  · simp only [hv, if_pos] at h
    simp only [Option.some.injEq, Prod.mk.injEq] at h
    obtain ⟨h1, h2⟩ := h
    subst h1; subst h2
    simp [pushCount, popCount]
  · simp only [if_neg hv] at h
    cases stack with
    | nil => exact Option.noConfusion h
    | cons t rest =>
      simp only [Option.some.injEq, Prod.mk.injEq] at h
      obtain ⟨h1, h2⟩ := h
      subst h1; subst h2
      simp [pushCount, popCount, List.countP_cons, isPush, isPop]

lemma stackF_succ {types : List TypeDef} {vis : Visitor} {fuel : Nat}
    (ihT : StackPropT types vis fuel) (ihE : StackPropE types vis fuel)
    (ihO : StackPropO types vis fuel) (ihS : StackPropS types vis fuel) :
    StackPropF types vis (fuel + 1) := by
  intro sN plan inner tag vIdx fv stack tr fv2 st h
  cases plan
  case optPlain =>
    cases fv
    case noneVal =>
      simp only [walkField, Option.some.injEq, Prod.mk.injEq] at h
      obtain ⟨h1, _, h3⟩ := h
      subst h1; subst h3
      simp [pushCount, popCount]
    case someVal x =>
      simp only [walkField] at h
      cases hR : applyRetag tag vIdx stack with
      | none => simp only [hR] at h; exact Option.noConfusion h
      | some r =>
        obtain ⟨trR, stack1⟩ := r
        simp only [hR] at h
        cases hC : walkType types vis fuel inner x stack1 with
        | none => simp only [hC] at h; exact Option.noConfusion h
        | some rc =>
          obtain ⟨trC, x2, st2⟩ := rc
          simp only [hC, Option.some.injEq, Prod.mk.injEq] at h
          obtain ⟨hTr, _, hSt⟩ := h
          obtain ⟨hL, hT, hPz, hPp⟩ := applyRetag_spec hR
          obtain ⟨hst, hbal⟩ := ihT _ _ _ _ _ _ hC
          subst hTr; subst hSt; subst hst
          refine ⟨⟨hL, hT⟩, ?_⟩
          simp only [pushCount, popCount, List.countP_append] at hPz hPp hbal ⊢
          omega
    all_goals (simp only [walkField] at h; exact Option.noConfusion h)
  case optBox =>
    cases fv
    case noneVal =>
      simp only [walkField, Option.some.injEq, Prod.mk.injEq] at h
      obtain ⟨h1, _, h3⟩ := h
      subst h1; subst h3
      simp [pushCount, popCount]
    case someVal y =>
      cases y
      case boxVal x =>
        simp only [walkField] at h
        cases hR : applyRetag tag vIdx stack with
        | none => simp only [hR] at h; exact Option.noConfusion h
        | some r =>
          obtain ⟨trR, stack1⟩ := r
          simp only [hR] at h
          cases hC : walkType types vis fuel inner x stack1 with
          | none => simp only [hC] at h; exact Option.noConfusion h
          | some rc =>
            obtain ⟨trC, x2, st2⟩ := rc
            simp only [hC, Option.some.injEq, Prod.mk.injEq] at h
            obtain ⟨hTr, _, hSt⟩ := h
            obtain ⟨hL, hT, hPz, hPp⟩ := applyRetag_spec hR
            obtain ⟨hst, hbal⟩ := ihT _ _ _ _ _ _ hC
            subst hTr; subst hSt; subst hst
            refine ⟨⟨hL, hT⟩, ?_⟩
            simp only [pushCount, popCount, List.countP_append] at hPz hPp hbal ⊢
            omega
      all_goals (simp only [walkField] at h; exact Option.noConfusion h)
    all_goals (simp only [walkField] at h; exact Option.noConfusion h)
  case optVec =>
    cases fv
    case noneVal =>
      simp only [walkField, Option.some.injEq, Prod.mk.injEq] at h
      obtain ⟨h1, _, h3⟩ := h
      subst h1; subst h3
      simp [pushCount, popCount]
    case someVal y =>
      cases y
      case vecVal xs =>
        simp only [walkField] at h
        cases hR : applyRetag tag vIdx stack with
        | none => simp only [hR] at h; exact Option.noConfusion h
        | some r =>
          obtain ⟨trR, stack1⟩ := r
          simp only [hR] at h
          cases hC : walkElems types vis fuel inner xs stack1 with
          | none => simp only [hC] at h; exact Option.noConfusion h
          | some rc =>
            obtain ⟨trC, xs2, st2⟩ := rc
            simp only [hC, Option.some.injEq, Prod.mk.injEq] at h
            obtain ⟨hTr, _, hSt⟩ := h
            obtain ⟨hL, hT, hPz, hPp⟩ := applyRetag_spec hR
            obtain ⟨hst, hbal⟩ := ihE _ _ _ _ _ _ hC
            subst hTr; subst hSt; subst hst
            refine ⟨⟨hL, hT⟩, ?_⟩
            simp only [pushCount, popCount, List.countP_append] at hPz hPp hbal ⊢
            omega
      all_goals (simp only [walkField] at h; exact Option.noConfusion h)
    all_goals (simp only [walkField] at h; exact Option.noConfusion h)
  case optVecStmt =>
    cases fv
    case noneVal =>
      simp only [walkField, Option.some.injEq, Prod.mk.injEq] at h
      obtain ⟨h1, _, h3⟩ := h
      subst h1; subst h3
      simp [pushCount, popCount]
    case someVal y =>
      cases y
      case vecVal xs =>
        simp only [walkField] at h
        cases hR : applyRetag tag vIdx stack with
        | none => simp only [hR] at h; exact Option.noConfusion h
        | some r =>
          obtain ⟨trR, stack1⟩ := r
          simp only [hR] at h
          cases hC : walkStatements types vis fuel xs stack1 with
          | none => simp only [hC] at h; exact Option.noConfusion h
          | some rc =>
            obtain ⟨trC, xs2, st2⟩ := rc
            simp only [hC, Option.some.injEq, Prod.mk.injEq] at h
            obtain ⟨hTr, _, hSt⟩ := h
            obtain ⟨hL, hT, hPz, hPp⟩ := applyRetag_spec hR
            obtain ⟨hst, hbal⟩ := ihS _ _ _ _ _ hC
            subst hTr; subst hSt; subst hst
            refine ⟨⟨hL, hT⟩, ?_⟩
            simp only [pushCount, popCount, List.countP_append] at hPz hPp hbal ⊢
            omega
      all_goals (simp only [walkField] at h; exact Option.noConfusion h)
    all_goals (simp only [walkField] at h; exact Option.noConfusion h)
  case vecStmt =>
    cases fv
    case vecVal xs =>
      simp only [walkField] at h
      cases hR : applyRetag tag vIdx stack with
      | none => simp only [hR] at h; exact Option.noConfusion h
      | some r =>
        obtain ⟨trR, stack1⟩ := r
        simp only [hR] at h
        cases hC : walkStatements types vis fuel xs stack1 with
        | none => simp only [hC] at h; exact Option.noConfusion h
        | some rc =>
          obtain ⟨trC, xs2, st2⟩ := rc
          simp only [hC, Option.some.injEq, Prod.mk.injEq] at h
          obtain ⟨hTr, _, hSt⟩ := h
          obtain ⟨hL, hT, hPz, hPp⟩ := applyRetag_spec hR
          obtain ⟨hst, hbal⟩ := ihS _ _ _ _ _ hC
          subst hTr; subst hSt; subst hst
          refine ⟨⟨hL, hT⟩, ?_⟩
          simp only [pushCount, popCount, List.countP_append] at hPz hPp hbal ⊢
          omega
    all_goals (simp only [walkField] at h; exact Option.noConfusion h)
  case vecPlain =>
    cases fv
    case vecVal xs =>
      simp only [walkField] at h
      cases hR : applyRetag tag vIdx stack with
      | none => simp only [hR] at h; exact Option.noConfusion h
      | some r =>
        obtain ⟨trR, stack1⟩ := r
        simp only [hR] at h
        cases hC : walkElems types vis fuel inner xs stack1 with
        | none => simp only [hC] at h; exact Option.noConfusion h
        | some rc =>
          obtain ⟨trC, xs2, st2⟩ := rc
          simp only [hC, Option.some.injEq, Prod.mk.injEq] at h
          obtain ⟨hTr, _, hSt⟩ := h
          obtain ⟨hL, hT, hPz, hPp⟩ := applyRetag_spec hR
          obtain ⟨hst, hbal⟩ := ihE _ _ _ _ _ _ hC
          subst hTr; subst hSt; subst hst
          refine ⟨⟨hL, hT⟩, ?_⟩
          simp only [pushCount, popCount, List.countP_append] at hPz hPp hbal ⊢
          omega
    all_goals (simp only [walkField] at h; exact Option.noConfusion h)
  case vecOpt =>
    cases fv
    case vecVal xs =>
      simp only [walkField] at h
      cases hR : applyRetag tag vIdx stack with
      | none => simp only [hR] at h; exact Option.noConfusion h
      | some r =>
        obtain ⟨trR, stack1⟩ := r
        simp only [hR] at h
        cases hC : walkOptElems types vis fuel inner xs stack1 with
        | none => simp only [hC] at h; exact Option.noConfusion h
        | some rc =>
          obtain ⟨trC, xs2, st2⟩ := rc
          simp only [hC, Option.some.injEq, Prod.mk.injEq] at h
          obtain ⟨hTr, _, hSt⟩ := h
          obtain ⟨hL, hT, hPz, hPp⟩ := applyRetag_spec hR
          obtain ⟨hst, hbal⟩ := ihO _ _ _ _ _ _ hC
          subst hTr; subst hSt; subst hst
          refine ⟨⟨hL, hT⟩, ?_⟩
          simp only [pushCount, popCount, List.countP_append] at hPz hPp hbal ⊢
          omega
    all_goals (simp only [walkField] at h; exact Option.noConfusion h)
  case box =>
    cases fv
    case boxVal x =>
      simp only [walkField] at h
      cases hR : applyRetag tag vIdx stack with
      | none => simp only [hR] at h; exact Option.noConfusion h
      | some r =>
        obtain ⟨trR, stack1⟩ := r
        simp only [hR] at h
        cases hC : walkType types vis fuel inner x stack1 with
        | none => simp only [hC] at h; exact Option.noConfusion h
        | some rc =>
          obtain ⟨trC, x2, st2⟩ := rc
          simp only [hC, Option.some.injEq, Prod.mk.injEq] at h
          obtain ⟨hTr, _, hSt⟩ := h
          obtain ⟨hL, hT, hPz, hPp⟩ := applyRetag_spec hR
          obtain ⟨hst, hbal⟩ := ihT _ _ _ _ _ _ hC
          subst hTr; subst hSt; subst hst
          refine ⟨⟨hL, hT⟩, ?_⟩
          simp only [pushCount, popCount, List.countP_append] at hPz hPp hbal ⊢
          omega
    all_goals (simp only [walkField] at h; exact Option.noConfusion h)
  case plain =>
    simp only [walkField] at h
    cases hR : applyRetag tag vIdx stack with
    | none => simp only [hR] at h; exact Option.noConfusion h
    | some r =>
      obtain ⟨trR, stack1⟩ := r
      simp only [hR] at h
      cases hC : walkType types vis fuel inner fv stack1 with
      | none => simp only [hC] at h; exact Option.noConfusion h
      | some rc =>
        obtain ⟨trC, w2, st2⟩ := rc
        simp only [hC, Option.some.injEq, Prod.mk.injEq] at h
        obtain ⟨hTr, _, hSt⟩ := h
        obtain ⟨hL, hT, hPz, hPp⟩ := applyRetag_spec hR
        obtain ⟨hst, hbal⟩ := ihT _ _ _ _ _ _ hC
        subst hTr; subst hSt; subst hst
        refine ⟨⟨hL, hT⟩, ?_⟩
        simp only [pushCount, popCount, List.countP_append] at hPz hPp hbal ⊢
        omega

lemma stackL_succ {types : List TypeDef} {vis : Visitor} {fuel : Nat}
    (ihF : StackPropF types vis fuel) (ihL : StackPropL types vis fuel) :
    StackPropL types vis (fuel + 1) := by
  intro sN pairs vIdx stack tr vals2 st h
  cases pairs with
  | nil =>
    simp only [walkFieldsList, Option.some.injEq, Prod.mk.injEq] at h
    obtain ⟨h1, _, h3⟩ := h
    subst h1; subst h3
    simp [pushCount, popCount]
  | cons p rest =>
    obtain ⟨f, fv⟩ := p
    simp only [walkFieldsList] at h
    by_cases hc : isCatalogued types f.innerTypeName = true
    · rw [if_pos hc] at h
      cases hp : fieldPlan f.wrappers f.innerTypeName with
      | none => simp only [hp] at h; exact Option.noConfusion h
      | some plan =>
        simp only [hp] at h
        cases hF : walkField types vis fuel sN plan f.innerTypeName
            (tagFor sN f.name) vIdx fv stack with
        | none => simp only [hF] at h; exact Option.noConfusion h
        | some r1 =>
          obtain ⟨tr1, fv2, stack1⟩ := r1
          simp only [hF] at h
          cases h2 : walkFieldsList types vis fuel sN rest (vIdx + 1) stack1 with
          | none => simp only [h2] at h; exact Option.noConfusion h
          | some r2 =>
            obtain ⟨tr2, fvs2, stack2⟩ := r2
            simp only [h2, Option.some.injEq, Prod.mk.injEq] at h
            obtain ⟨hTr, _, hSt⟩ := h
            obtain ⟨⟨hL1, hT1⟩, hbal1⟩ := ihF _ _ _ _ _ _ _ _ _ _ hF
            obtain ⟨⟨hL2, hT2⟩, hbal2⟩ := ihL _ _ _ _ _ _ _ h2
            subst hTr; subst hSt
            refine ⟨⟨hL2.trans hL1, hT2.trans hT1⟩, ?_⟩
            simp only [pushCount, popCount, List.countP_append] at hbal1 hbal2 ⊢
            omega
    · rw [if_neg hc] at h
      cases h2 : walkFieldsList types vis fuel sN rest vIdx stack with
      | none => simp only [h2] at h; exact Option.noConfusion h
      | some r2 =>
        obtain ⟨tr2, fvs2, stack2⟩ := r2
        simp only [h2, Option.some.injEq, Prod.mk.injEq] at h
        obtain ⟨hTr, _, hSt⟩ := h
        obtain ⟨⟨hL2, hT2⟩, hbal2⟩ := ihL _ _ _ _ _ _ _ h2
        subst hTr; subst hSt
        exact ⟨⟨hL2, hT2⟩, hbal2⟩

lemma stackT_succ {types : List TypeDef} {vis : Visitor} {fuel : Nat}
    (ihT : StackPropT types vis fuel) (ihL : StackPropL types vis fuel) :
    StackPropT types vis (fuel + 1) := by
  intro tn v stack tr v2 st h
  simp only [walkType] at h
  cases hFind : findType types tn with
  | none => simp only [hFind] at h; exact Option.noConfusion h
  | some td =>
    cases td with
    | struct s =>
      simp only [hFind] at h
      cases hE : vis.enterHook s.name v
      case structVal vn vals =>
        simp only [hE] at h
        by_cases hLen : vals.length = s.fields.length
        case neg => rw [if_neg hLen] at h; exact Option.noConfusion h
        rw [if_pos hLen] at h
        cases hV : visitedFieldsOf types s with
          | nil =>
            simp only [hV, Option.some.injEq, Prod.mk.injEq] at h
            obtain ⟨h1, _, h3⟩ := h
            subst h1; subst h3
            simp [pushCount, popCount, List.countP_cons, isPush, isPop]
          | cons f0 fs =>
            simp only [hV] at h
            cases hL : walkFieldsList types vis fuel s.name (s.fields.zip vals) 0
                (tagFor s.name f0.name :: stack) with
            | none => simp only [hL] at h; exact Option.noConfusion h
            | some r1 =>
              obtain ⟨trF, vals2, stack2⟩ := r1
              simp only [hL] at h
              cases stack2 with
              | nil => exact Option.noConfusion h
              | cons t2 stack3 =>
                simp only [Option.some.injEq, Prod.mk.injEq] at h
                obtain ⟨hTr, _, hSt⟩ := h
                obtain ⟨⟨hLn, hTl⟩, hbal⟩ := ihL _ _ _ _ _ _ _ hL
                subst hTr; subst hSt
                constructor
                · simpa using hTl
                · simp only [pushCount, popCount, List.countP_append,
                    List.countP_cons, isPush, isPop] at hbal ⊢
                  simp
                  omega
      all_goals (simp only [hE] at h; exact Option.noConfusion h)
    | enum e =>
      simp only [hFind] at h
      cases hE : vis.enterHook e.name v
      case enumVal vn variantName payload =>
        simp only [hE] at h
        cases hFv : e.variants.find? (fun vr => vr.name = variantName) with
        | some variant =>
          simp only [hFv] at h
          by_cases hCat : isCatalogued types variant.innerTypeName = true
          · rw [if_pos hCat] at h
            cases hW : variant.wrappers with
            | nil =>
              simp only [hW] at h
              cases hC : walkType types vis fuel variant.innerTypeName payload stack with
              | none => simp only [hC] at h; exact Option.noConfusion h
              | some rc =>
                obtain ⟨trP, p2, st2⟩ := rc
                simp only [hC, Option.some.injEq, Prod.mk.injEq] at h
                obtain ⟨hTr, _, hSt⟩ := h
                obtain ⟨hst, hbal⟩ := ihT _ _ _ _ _ _ hC
                subst hTr; subst hSt; subst hst
                refine ⟨rfl, ?_⟩
                simp only [pushCount, popCount, List.countP_append,
                  List.countP_cons, isPush, isPop] at hbal ⊢
                simp
                omega
            | cons w ws =>
              cases w with
              | box =>
                cases ws with
                | nil =>
                  cases payload with
                  | structVal a b => simp only [hW] at h; exact Option.noConfusion h
                  | enumVal a b c => simp only [hW] at h; exact Option.noConfusion h
                  | someVal y => simp only [hW] at h; exact Option.noConfusion h
                  | noneVal => simp only [hW] at h; exact Option.noConfusion h
                  | vecVal ys => simp only [hW] at h; exact Option.noConfusion h
                  | terminal => simp only [hW] at h; exact Option.noConfusion h
                  | boxVal x =>
                    simp only [hW] at h
                    cases hC : walkType types vis fuel variant.innerTypeName x stack with
                    | none => simp only [hC] at h; exact Option.noConfusion h
                    | some rc =>
                      obtain ⟨trP, x2, st2⟩ := rc
                      simp only [hC, Option.some.injEq, Prod.mk.injEq] at h
                      obtain ⟨hTr, _, hSt⟩ := h
                      obtain ⟨hst, hbal⟩ := ihT _ _ _ _ _ _ hC
                      subst hTr; subst hSt; subst hst
                      refine ⟨rfl, ?_⟩
                      simp only [pushCount, popCount, List.countP_append,
                        List.countP_cons, isPush, isPop] at hbal ⊢
                      simp
                      omega
                | cons w2 ws2 => simp only [hW] at h; exact Option.noConfusion h
              | option => simp only [hW] at h; exact Option.noConfusion h
              | vec => simp only [hW] at h; exact Option.noConfusion h
          · rw [if_neg hCat] at h
            exact Option.noConfusion h
        | none =>
          simp only [hFv] at h
          cases hA : enumInheritArms types (fuel + 1) e.inherits with
          | none => simp only [hA] at h; exact Option.noConfusion h
          | some arms =>
            simp only [hA] at h
            cases hFB : arms.find? (fun a => a.2.contains variantName) with
            | none => simp only [hFB] at h; exact Option.noConfusion h
            | some arm =>
              obtain ⟨baseName, names⟩ := arm
              simp only [hFB] at h
              cases hC : walkType types vis fuel baseName
                  (Value.enumVal vn variantName payload) stack with
              | none => simp only [hC] at h; exact Option.noConfusion h
              | some rc =>
                obtain ⟨trB, vB, st2⟩ := rc
                simp only [hC, Option.some.injEq, Prod.mk.injEq] at h
                obtain ⟨hTr, _, hSt⟩ := h
                obtain ⟨hst, hbal⟩ := ihT _ _ _ _ _ _ hC
                subst hTr; subst hSt; subst hst
                refine ⟨rfl, ?_⟩
                simp only [pushCount, popCount, List.countP_append,
                  List.countP_cons, isPush, isPop] at hbal ⊢
                simp
                omega
      all_goals (simp only [hE] at h; exact Option.noConfusion h)

/-- All six stack invariants hold at every fuel: a successful walk restores the
ancestor stack exactly and its trace has balanced pushes and pops. -/
lemma stackPropAll_all (types : List TypeDef) (vis : Visitor) :
    ∀ fuel, StackPropAll types vis fuel := by
  intro fuel
  induction fuel with
  | zero =>
    refine ⟨?_, ?_, ?_, ?_, ?_, ?_⟩
    · intro tn v stack tr v2 st h; exact Option.noConfusion h
    · intro sN pairs vIdx stack tr vals2 st h; exact Option.noConfusion h
    · intro sN plan inner tag vIdx fv stack tr fv2 st h; exact Option.noConfusion h
    · intro inner xs stack tr xs2 st h; exact Option.noConfusion h
    · intro inner xs stack tr xs2 st h; exact Option.noConfusion h
    · intro xs stack tr xs2 st h; exact Option.noConfusion h
  | succ n ih =>
    obtain ⟨ihT, ihL, ihF, ihE, ihO, ihS⟩ := ih
    exact ⟨stackT_succ ihT ihL, stackL_succ ihF ihL,
      stackF_succ ihT ihE ihO ihS, stackE_succ ihT ihE,
      stackO_succ ihT ihO, stackS_succ ihE⟩

/-- Null-pass invariant of a full walk under the default visitor: the value is
returned unchanged. -/
def ValPropT (types : List TypeDef) (fuel : Nat) : Prop :=
  ∀ tn v stack tr v2 st,
    walkType types defaultVisitor fuel tn v stack = some (tr, v2, st) → v2 = v

/-- Null-pass invariant of the per-field code list under the default visitor:
the field values are returned unchanged. -/
def ValPropL (types : List TypeDef) (fuel : Nat) : Prop :=
  ∀ sN pairs vIdx stack tr vals2 st,
    walkFieldsList types defaultVisitor fuel sN pairs vIdx stack = some (tr, vals2, st) →
    vals2 = pairs.map Prod.snd

/-- Null-pass invariant of a single field's code under the default visitor. -/
def ValPropF (types : List TypeDef) (fuel : Nat) : Prop :=
  ∀ sN plan inner tag vIdx fv stack tr fv2 st,
    walkField types defaultVisitor fuel sN plan inner tag vIdx fv stack = some (tr, fv2, st) →
    fv2 = fv

/-- Null-pass invariant of element iteration under the default visitor. -/
def ValPropE (types : List TypeDef) (fuel : Nat) : Prop :=
  ∀ inner xs stack tr xs2 st,
    walkElems types defaultVisitor fuel inner xs stack = some (tr, xs2, st) → xs2 = xs

/-- Null-pass invariant of optional-element iteration under the default
visitor. -/
def ValPropO (types : List TypeDef) (fuel : Nat) : Prop :=
  ∀ inner xs stack tr xs2 st,
    walkOptElems types defaultVisitor fuel inner xs stack = some (tr, xs2, st) → xs2 = xs

/-- Null-pass invariant of `walk_statements` under the default visitor. -/
def ValPropS (types : List TypeDef) (fuel : Nat) : Prop :=
  ∀ xs stack tr xs2 st,
    walkStatements types defaultVisitor fuel xs stack = some (tr, xs2, st) → xs2 = xs

/-- The default visitor's enter hook is the identity. -/
@[simp] lemma defaultVisitor_enterHook (n : String) (v : Value) :
    defaultVisitor.enterHook n v = v := rfl

/-- The default visitor's exit hook is the identity. -/
@[simp] lemma defaultVisitor_exitHook (n : String) (v : Value) :
    defaultVisitor.exitHook n v = v := rfl

/-- The default visitor's statements enter hook is the identity. -/
@[simp] lemma defaultVisitor_enterStatementsHook (xs : List Value) :
    defaultVisitor.enterStatementsHook xs = xs := rfl

/-- The default visitor's statements exit hook is the identity. -/
@[simp] lemma defaultVisitor_exitStatementsHook (xs : List Value) :
    defaultVisitor.exitStatementsHook xs = xs := rfl

/-- All six null-pass invariants at a given fuel. -/
def ValPropAll (types : List TypeDef) (fuel : Nat) : Prop :=
  ValPropT types fuel ∧ ValPropL types fuel ∧ ValPropF types fuel ∧
    ValPropE types fuel ∧ ValPropO types fuel ∧ ValPropS types fuel

lemma valE_succ {types : List TypeDef} {fuel : Nat}
    (ihT : ValPropT types fuel) (ihE : ValPropE types fuel) :
    ValPropE types (fuel + 1) := by
  intro inner xs stack tr xs2 st h
  cases xs with
  | nil =>
    simp only [walkElems, Option.some.injEq, Prod.mk.injEq] at h
    exact h.2.1.symm
  | cons x rest =>
    simp only [walkElems] at h
    cases h1 : walkType types defaultVisitor fuel inner x stack with
    | none => simp only [h1] at h; exact Option.noConfusion h
    | some r1 =>
      obtain ⟨tr1, x2, st1⟩ := r1
      simp only [h1] at h
      cases h2 : walkElems types defaultVisitor fuel inner rest st1 with
      | none => simp only [h2] at h; exact Option.noConfusion h
      | some r2 =>
        obtain ⟨tr2, rest2, st2⟩ := r2
        simp only [h2, Option.some.injEq, Prod.mk.injEq] at h
        obtain ⟨_, hV, _⟩ := h
        rw [ihT _ _ _ _ _ _ h1, ihE _ _ _ _ _ _ h2] at hV
        exact hV.symm

lemma valO_succ {types : List TypeDef} {fuel : Nat}
    (ihT : ValPropT types fuel) (ihO : ValPropO types fuel) :
    ValPropO types (fuel + 1) := by
  intro inner xs stack tr xs2 st h
  cases xs with
  | nil =>
    simp only [walkOptElems, Option.some.injEq, Prod.mk.injEq] at h
    exact h.2.1.symm
  | cons x rest =>
    cases x
    case noneVal =>
      simp only [walkOptElems] at h
      cases h2 : walkOptElems types defaultVisitor fuel inner rest stack with
      | none => simp only [h2] at h; exact Option.noConfusion h
      | some r2 =>
        obtain ⟨tr2, rest2, st2⟩ := r2
        simp only [h2, Option.some.injEq, Prod.mk.injEq] at h
        obtain ⟨_, hV, _⟩ := h
        rw [ihO _ _ _ _ _ _ h2] at hV
        exact hV.symm
    case someVal y =>
      simp only [walkOptElems] at h
      cases h1 : walkType types defaultVisitor fuel inner y stack with
      | none => simp only [h1] at h; exact Option.noConfusion h
      | some r1 =>
        obtain ⟨tr1, y2, st1⟩ := r1
        simp only [h1] at h
        cases h2 : walkOptElems types defaultVisitor fuel inner rest st1 with
        | none => simp only [h2] at h; exact Option.noConfusion h
        | some r2 =>
          obtain ⟨tr2, rest2, st2⟩ := r2
          simp only [h2, Option.some.injEq, Prod.mk.injEq] at h
          obtain ⟨_, hV, _⟩ := h
          rw [ihT _ _ _ _ _ _ h1, ihO _ _ _ _ _ _ h2] at hV
          exact hV.symm
    all_goals (simp only [walkOptElems] at h; exact Option.noConfusion h)

lemma valS_succ {types : List TypeDef} {fuel : Nat}
    (ihE : ValPropE types fuel) :
    ValPropS types (fuel + 1) := by
  intro xs stack tr xs2 st h
  simp only [walkStatements, defaultVisitor_enterStatementsHook,
    defaultVisitor_exitStatementsHook] at h
  cases h1 : walkElems types defaultVisitor fuel "Statement" xs stack with
  | none => simp only [h1] at h; exact Option.noConfusion h
  | some r1 =>
    obtain ⟨tr1, ys, st1⟩ := r1
    simp only [h1, Option.some.injEq, Prod.mk.injEq] at h
    obtain ⟨_, hV, _⟩ := h
    rw [ihE _ _ _ _ _ _ h1] at hV
    exact hV.symm

lemma valF_succ {types : List TypeDef} {fuel : Nat}
    (ihT : ValPropT types fuel) (ihE : ValPropE types fuel)
    (ihO : ValPropO types fuel) (ihS : ValPropS types fuel) :
    ValPropF types (fuel + 1) := by
  intro sN plan inner tag vIdx fv stack tr fv2 st h
  cases plan
  case optPlain =>
    cases fv
    case noneVal =>
      simp only [walkField, Option.some.injEq, Prod.mk.injEq] at h
      exact h.2.1.symm
    case someVal x =>
      simp only [walkField] at h
      cases hR : applyRetag tag vIdx stack with
      | none => simp only [hR] at h; exact Option.noConfusion h
      | some r =>
        obtain ⟨trR, stack1⟩ := r
        simp only [hR] at h
        cases hC : walkType types defaultVisitor fuel inner x stack1 with
        | none => simp only [hC] at h; exact Option.noConfusion h
        | some rc =>
          obtain ⟨trC, x2, st2⟩ := rc
          simp only [hC, Option.some.injEq, Prod.mk.injEq] at h
          obtain ⟨_, hV, _⟩ := h
          rw [ihT _ _ _ _ _ _ hC] at hV
          exact hV.symm
    all_goals (simp only [walkField] at h; exact Option.noConfusion h)
  case optBox =>
    cases fv
    case noneVal =>
      simp only [walkField, Option.some.injEq, Prod.mk.injEq] at h
      exact h.2.1.symm
    case someVal y =>
      cases y
      case boxVal x =>
        simp only [walkField] at h
        cases hR : applyRetag tag vIdx stack with
        | none => simp only [hR] at h; exact Option.noConfusion h
        | some r =>
          obtain ⟨trR, stack1⟩ := r
          simp only [hR] at h
          cases hC : walkType types defaultVisitor fuel inner x stack1 with
          | none => simp only [hC] at h; exact Option.noConfusion h
          | some rc =>
            obtain ⟨trC, x2, st2⟩ := rc
            simp only [hC, Option.some.injEq, Prod.mk.injEq] at h
            obtain ⟨_, hV, _⟩ := h
            rw [ihT _ _ _ _ _ _ hC] at hV
            exact hV.symm
      all_goals (simp only [walkField] at h; exact Option.noConfusion h)
    all_goals (simp only [walkField] at h; exact Option.noConfusion h)
  case optVec =>
    cases fv
    case noneVal =>
      simp only [walkField, Option.some.injEq, Prod.mk.injEq] at h
      exact h.2.1.symm
    case someVal y =>
      cases y
      case vecVal xs =>
        simp only [walkField] at h
        cases hR : applyRetag tag vIdx stack with
        | none => simp only [hR] at h; exact Option.noConfusion h
        | some r =>
          obtain ⟨trR, stack1⟩ := r
          simp only [hR] at h
          cases hC : walkElems types defaultVisitor fuel inner xs stack1 with
          | none => simp only [hC] at h; exact Option.noConfusion h
          | some rc =>
            obtain ⟨trC, xs2, st2⟩ := rc
            simp only [hC, Option.some.injEq, Prod.mk.injEq] at h
            obtain ⟨_, hV, _⟩ := h
            rw [ihE _ _ _ _ _ _ hC] at hV
            exact hV.symm
      all_goals (simp only [walkField] at h; exact Option.noConfusion h)
    all_goals (simp only [walkField] at h; exact Option.noConfusion h)
  case optVecStmt =>
    cases fv
    case noneVal =>
      simp only [walkField, Option.some.injEq, Prod.mk.injEq] at h
      exact h.2.1.symm
    case someVal y =>
      cases y
      case vecVal xs =>
        simp only [walkField] at h
        cases hR : applyRetag tag vIdx stack with
        | none => simp only [hR] at h; exact Option.noConfusion h
        | some r =>
          obtain ⟨trR, stack1⟩ := r
          simp only [hR] at h
          cases hC : walkStatements types defaultVisitor fuel xs stack1 with
          | none => simp only [hC] at h; exact Option.noConfusion h
          | some rc =>
            obtain ⟨trC, xs2, st2⟩ := rc
            simp only [hC, Option.some.injEq, Prod.mk.injEq] at h
            obtain ⟨_, hV, _⟩ := h
            rw [ihS _ _ _ _ _ hC] at hV
            exact hV.symm
      all_goals (simp only [walkField] at h; exact Option.noConfusion h)
    all_goals (simp only [walkField] at h; exact Option.noConfusion h)
  case vecStmt =>
    cases fv
    case vecVal xs =>
      simp only [walkField] at h
      cases hR : applyRetag tag vIdx stack with
      | none => simp only [hR] at h; exact Option.noConfusion h
      | some r =>
        obtain ⟨trR, stack1⟩ := r
        simp only [hR] at h
        cases hC : walkStatements types defaultVisitor fuel xs stack1 with
        | none => simp only [hC] at h; exact Option.noConfusion h
        | some rc =>
          obtain ⟨trC, xs2, st2⟩ := rc
          simp only [hC, Option.some.injEq, Prod.mk.injEq] at h
          obtain ⟨_, hV, _⟩ := h
          rw [ihS _ _ _ _ _ hC] at hV
          exact hV.symm
    all_goals (simp only [walkField] at h; exact Option.noConfusion h)
  case vecPlain =>
    cases fv
    case vecVal xs =>
      simp only [walkField] at h
      cases hR : applyRetag tag vIdx stack with
      | none => simp only [hR] at h; exact Option.noConfusion h
      | some r =>
        obtain ⟨trR, stack1⟩ := r
        simp only [hR] at h
        cases hC : walkElems types defaultVisitor fuel inner xs stack1 with
        | none => simp only [hC] at h; exact Option.noConfusion h
        | some rc =>
          obtain ⟨trC, xs2, st2⟩ := rc
          simp only [hC, Option.some.injEq, Prod.mk.injEq] at h
          obtain ⟨_, hV, _⟩ := h
          rw [ihE _ _ _ _ _ _ hC] at hV
          exact hV.symm
    all_goals (simp only [walkField] at h; exact Option.noConfusion h)
  case vecOpt =>
    cases fv
    case vecVal xs =>
      simp only [walkField] at h
      cases hR : applyRetag tag vIdx stack with
      | none => simp only [hR] at h; exact Option.noConfusion h
      | some r =>
        obtain ⟨trR, stack1⟩ := r
        simp only [hR] at h
        cases hC : walkOptElems types defaultVisitor fuel inner xs stack1 with
        | none => simp only [hC] at h; exact Option.noConfusion h
        | some rc =>
          obtain ⟨trC, xs2, st2⟩ := rc
          simp only [hC, Option.some.injEq, Prod.mk.injEq] at h
          obtain ⟨_, hV, _⟩ := h
          rw [ihO _ _ _ _ _ _ hC] at hV
          exact hV.symm
    all_goals (simp only [walkField] at h; exact Option.noConfusion h)
  case box =>
    cases fv
    case boxVal x =>
      simp only [walkField] at h
      cases hR : applyRetag tag vIdx stack with
      | none => simp only [hR] at h; exact Option.noConfusion h
      | some r =>
        obtain ⟨trR, stack1⟩ := r
        simp only [hR] at h
        cases hC : walkType types defaultVisitor fuel inner x stack1 with
        | none => simp only [hC] at h; exact Option.noConfusion h
        | some rc =>
          obtain ⟨trC, x2, st2⟩ := rc
          simp only [hC, Option.some.injEq, Prod.mk.injEq] at h
          obtain ⟨_, hV, _⟩ := h
          rw [ihT _ _ _ _ _ _ hC] at hV
          exact hV.symm
    all_goals (simp only [walkField] at h; exact Option.noConfusion h)
  case plain =>
    simp only [walkField] at h
    cases hR : applyRetag tag vIdx stack with
    | none => simp only [hR] at h; exact Option.noConfusion h
    | some r =>
      obtain ⟨trR, stack1⟩ := r
      simp only [hR] at h
      cases hC : walkType types defaultVisitor fuel inner fv stack1 with
      | none => simp only [hC] at h; exact Option.noConfusion h
      | some rc =>
        obtain ⟨trC, w2, st2⟩ := rc
        simp only [hC, Option.some.injEq, Prod.mk.injEq] at h
        obtain ⟨_, hV, _⟩ := h
        rw [ihT _ _ _ _ _ _ hC] at hV
        exact hV.symm

lemma valL_succ {types : List TypeDef} {fuel : Nat}
    (ihF : ValPropF types fuel) (ihL : ValPropL types fuel) :
    ValPropL types (fuel + 1) := by
  intro sN pairs vIdx stack tr vals2 st h
  cases pairs with
  | nil =>
    simp only [walkFieldsList, Option.some.injEq, Prod.mk.injEq] at h
    simp [h.2.1.symm]
  | cons p rest =>
    obtain ⟨f, fv⟩ := p
    simp only [walkFieldsList] at h
    by_cases hc : isCatalogued types f.innerTypeName = true
    · rw [if_pos hc] at h
      cases hp : fieldPlan f.wrappers f.innerTypeName with
      | none => simp only [hp] at h; exact Option.noConfusion h
      | some plan =>
        simp only [hp] at h
        cases hF : walkField types defaultVisitor fuel sN plan f.innerTypeName
            (tagFor sN f.name) vIdx fv stack with
        | none => simp only [hF] at h; exact Option.noConfusion h
        | some r1 =>
          obtain ⟨tr1, fv2, stack1⟩ := r1
          simp only [hF] at h
          cases h2 : walkFieldsList types defaultVisitor fuel sN rest (vIdx + 1) stack1 with
          | none => simp only [h2] at h; exact Option.noConfusion h
          | some r2 =>
            obtain ⟨tr2, fvs2, stack2⟩ := r2
            simp only [h2, Option.some.injEq, Prod.mk.injEq] at h
            obtain ⟨_, hV, _⟩ := h
            rw [ihF _ _ _ _ _ _ _ _ _ _ hF, ihL _ _ _ _ _ _ _ h2] at hV
            simp [hV.symm]
    · rw [if_neg hc] at h
      cases h2 : walkFieldsList types defaultVisitor fuel sN rest vIdx stack with
      | none => simp only [h2] at h; exact Option.noConfusion h
      | some r2 =>
        obtain ⟨tr2, fvs2, stack2⟩ := r2
        simp only [h2, Option.some.injEq, Prod.mk.injEq] at h
        obtain ⟨_, hV, _⟩ := h
        rw [ihL _ _ _ _ _ _ _ h2] at hV
        simp [hV.symm]

lemma valT_succ {types : List TypeDef} {fuel : Nat}
    (ihT : ValPropT types fuel) (ihL : ValPropL types fuel) :
    ValPropT types (fuel + 1) := by
  intro tn v stack tr v2 st h
  simp only [walkType] at h
  cases hFind : findType types tn with
  | none => simp only [hFind] at h; exact Option.noConfusion h
  | some td =>
    cases td with
    | struct s =>
      simp only [hFind] at h
      cases hE : defaultVisitor.enterHook s.name v
      case structVal vn vals =>
        rw [defaultVisitor_enterHook] at hE
        subst hE
        simp only [defaultVisitor_enterHook] at h
        by_cases hLen : vals.length = s.fields.length
        case neg => rw [if_neg hLen] at h; exact Option.noConfusion h
        rw [if_pos hLen] at h
        cases hV : visitedFieldsOf types s with
        | nil =>
          simp only [hV, Option.some.injEq, Prod.mk.injEq,
            defaultVisitor_exitHook] at h
          exact h.2.1.symm
        | cons f0 fs =>
          simp only [hV] at h
          cases hL : walkFieldsList types defaultVisitor fuel s.name
              (s.fields.zip vals) 0 (tagFor s.name f0.name :: stack) with
          | none => simp only [hL] at h; exact Option.noConfusion h
          | some r1 =>
            obtain ⟨trF, vals2, stack2⟩ := r1
            simp only [hL] at h
            cases stack2 with
            | nil => exact Option.noConfusion h
            | cons t2 stack3 =>
              simp only [Option.some.injEq, Prod.mk.injEq,
                defaultVisitor_exitHook] at h
              obtain ⟨_, hV2, _⟩ := h
              rw [ihL _ _ _ _ _ _ _ hL] at hV2
              rw [List.map_snd_zip s.fields vals (le_of_eq hLen)] at hV2
              exact hV2.symm
      all_goals (simp only [hE] at h; exact Option.noConfusion h)
    | enum e =>
      simp only [hFind] at h
      cases hE : defaultVisitor.enterHook e.name v
      case enumVal vn variantName payload =>
        rw [defaultVisitor_enterHook] at hE
        subst hE
        simp only [defaultVisitor_enterHook] at h
        cases hFv : e.variants.find? (fun vr => vr.name = variantName) with
        | some variant =>
          simp only [hFv] at h
          by_cases hCat : isCatalogued types variant.innerTypeName = true
          case neg => rw [if_neg hCat] at h; exact Option.noConfusion h
          rw [if_pos hCat] at h
          cases hW : variant.wrappers with
          | nil =>
            simp only [hW] at h
            cases hC : walkType types defaultVisitor fuel variant.innerTypeName
                payload stack with
            | none => simp only [hC] at h; exact Option.noConfusion h
            | some rc =>
              obtain ⟨trP, p2, st2⟩ := rc
              simp only [hC, Option.some.injEq, Prod.mk.injEq,
                defaultVisitor_exitHook] at h
              obtain ⟨_, hV2, _⟩ := h
              rw [ihT _ _ _ _ _ _ hC] at hV2
              exact hV2.symm
          | cons w ws =>
            cases w with
            | box =>
              cases ws with
              | nil =>
                cases payload with
                | structVal a b => simp only [hW] at h; exact Option.noConfusion h
                | enumVal a b c => simp only [hW] at h; exact Option.noConfusion h
                | someVal y => simp only [hW] at h; exact Option.noConfusion h
                | noneVal => simp only [hW] at h; exact Option.noConfusion h
                | vecVal ys => simp only [hW] at h; exact Option.noConfusion h
                | terminal => simp only [hW] at h; exact Option.noConfusion h
                | boxVal x =>
                  simp only [hW] at h
                  cases hC : walkType types defaultVisitor fuel
                      variant.innerTypeName x stack with
                  | none => simp only [hC] at h; exact Option.noConfusion h
                  | some rc =>
                    obtain ⟨trP, x2, st2⟩ := rc
                    simp only [hC, Option.some.injEq, Prod.mk.injEq,
                      defaultVisitor_exitHook] at h
                    obtain ⟨_, hV2, _⟩ := h
                    rw [ihT _ _ _ _ _ _ hC] at hV2
                    exact hV2.symm
              | cons w2 ws2 => simp only [hW] at h; exact Option.noConfusion h
            | option => simp only [hW] at h; exact Option.noConfusion h
            | vec => simp only [hW] at h; exact Option.noConfusion h
        | none =>
          simp only [hFv] at h
          cases hA : enumInheritArms types (fuel + 1) e.inherits with
          | none => simp only [hA] at h; exact Option.noConfusion h
          | some arms =>
            simp only [hA] at h
            cases hFB : arms.find? (fun a => a.2.contains variantName) with
            | none => simp only [hFB] at h; exact Option.noConfusion h
            | some arm =>
              obtain ⟨baseName, names⟩ := arm
              simp only [hFB] at h
              cases hC : walkType types defaultVisitor fuel baseName
                  (Value.enumVal vn variantName payload) stack with
              | none => simp only [hC] at h; exact Option.noConfusion h
              | some rc =>
                obtain ⟨trB, vB, st2⟩ := rc
                simp only [hC, Option.some.injEq, Prod.mk.injEq,
                  defaultVisitor_exitHook] at h
                obtain ⟨_, hV2, _⟩ := h
                rw [ihT _ _ _ _ _ _ hC] at hV2
                exact hV2.symm
      all_goals (simp only [hE] at h; exact Option.noConfusion h)

/-- All six null-pass invariants hold at every fuel: a successful walk with the
default (no-op) visitor returns every node exactly as it found it. -/
lemma valPropAll_all (types : List TypeDef) :
    ∀ fuel, ValPropAll types fuel := by
  intro fuel
  induction fuel with
  | zero =>
    refine ⟨?_, ?_, ?_, ?_, ?_, ?_⟩
    · intro tn v stack tr v2 st h; exact Option.noConfusion h
    · intro sN pairs vIdx stack tr vals2 st h; exact Option.noConfusion h
    · intro sN plan inner tag vIdx fv stack tr fv2 st h; exact Option.noConfusion h
    · intro inner xs stack tr xs2 st h; exact Option.noConfusion h
    · intro inner xs stack tr xs2 st h; exact Option.noConfusion h
    · intro xs stack tr xs2 st h; exact Option.noConfusion h
  | succ n ih =>
    obtain ⟨ihT, ihL, ihF, ihE, ihO, ihS⟩ := ih
    exact ⟨valT_succ ihT ihL, valL_succ ihF ihL,
      valF_succ ihT ihE ihO ihS, valE_succ ihT ihE,
      valO_succ ihT ihO, valS_succ ihE⟩

/-- With a non-zero visited index, a successful `applyRetag` emits exactly the
retag event. -/
lemma applyRetag_ne {tag : Tag} {vIdx : Nat} {stack : List Tag}
    {trR : List Event} {stack1 : List Tag} (hv : vIdx ≠ 0)
    (h : applyRetag tag vIdx stack = some (trR, stack1)) :
    trR = [Event.retag tag] := by
  unfold applyRetag at h
  rw [if_neg hv] at h
  cases stack with
  | nil => exact Option.noConfusion h
  | cons t rest =>
    simp only [Option.some.injEq, Prod.mk.injEq] at h
    exact h.1.symm

/-- The trace of a non-first visited field's code is either empty (an absent
optional field) or begins with the retag to that field's tag. -/
lemma walkField_trace_head {types : List TypeDef} {vis : Visitor} {fuel : Nat}
    {sN : String} {plan : FieldPlan} {inner : String} {tag : Tag} {vIdx : Nat}
    {fv : Value} {stack : List Tag} {tr : List Event} {fv2 : Value} {st : List Tag}
    (hv : vIdx ≠ 0)
    (h : walkField types vis fuel sN plan inner tag vIdx fv stack = some (tr, fv2, st)) :
    tr = [] ∨ ∃ r, tr = Event.retag tag :: r := by
  cases fuel with
  | zero => exact Option.noConfusion h
  | succ n =>
    cases plan
    case optPlain =>
      cases fv
      case noneVal =>
        simp only [walkField, Option.some.injEq, Prod.mk.injEq] at h
        exact Or.inl h.1.symm
      case someVal x =>
        simp only [walkField] at h
        cases hR : applyRetag tag vIdx stack with
        | none => simp only [hR] at h; exact Option.noConfusion h
        | some r =>
          obtain ⟨trR, stack1⟩ := r
          simp only [hR] at h
          cases hC : walkType types vis n inner x stack1 with
          | none => simp only [hC] at h; exact Option.noConfusion h
          | some rc =>
            obtain ⟨trC, x2, st2⟩ := rc
            simp only [hC, Option.some.injEq, Prod.mk.injEq] at h
            refine Or.inr ⟨trC, ?_⟩
            rw [← h.1, applyRetag_ne hv hR]
            rfl
      all_goals (simp only [walkField] at h; exact Option.noConfusion h)
    case optBox =>
      cases fv
      case noneVal =>
        simp only [walkField, Option.some.injEq, Prod.mk.injEq] at h
        exact Or.inl h.1.symm
      case someVal y =>
        cases y
        case boxVal x =>
          simp only [walkField] at h
          cases hR : applyRetag tag vIdx stack with
          | none => simp only [hR] at h; exact Option.noConfusion h
          | some r =>
            obtain ⟨trR, stack1⟩ := r
            simp only [hR] at h
            cases hC : walkType types vis n inner x stack1 with
            | none => simp only [hC] at h; exact Option.noConfusion h
            | some rc =>
              obtain ⟨trC, x2, st2⟩ := rc
              simp only [hC, Option.some.injEq, Prod.mk.injEq] at h
              refine Or.inr ⟨trC, ?_⟩
              rw [← h.1, applyRetag_ne hv hR]
              rfl
        all_goals (simp only [walkField] at h; exact Option.noConfusion h)
      all_goals (simp only [walkField] at h; exact Option.noConfusion h)
    case optVec =>
      cases fv
      case noneVal =>
        simp only [walkField, Option.some.injEq, Prod.mk.injEq] at h
        exact Or.inl h.1.symm
      case someVal y =>
        cases y
        case vecVal xs =>
          simp only [walkField] at h
          cases hR : applyRetag tag vIdx stack with
          | none => simp only [hR] at h; exact Option.noConfusion h
          | some r =>
            obtain ⟨trR, stack1⟩ := r
            simp only [hR] at h
            cases hC : walkElems types vis n inner xs stack1 with
            | none => simp only [hC] at h; exact Option.noConfusion h
            | some rc =>
              obtain ⟨trC, xs2, st2⟩ := rc
              simp only [hC, Option.some.injEq, Prod.mk.injEq] at h
              refine Or.inr ⟨trC, ?_⟩
              rw [← h.1, applyRetag_ne hv hR]
              rfl
        all_goals (simp only [walkField] at h; exact Option.noConfusion h)
      all_goals (simp only [walkField] at h; exact Option.noConfusion h)
    case optVecStmt =>
      cases fv
      case noneVal =>
        simp only [walkField, Option.some.injEq, Prod.mk.injEq] at h
        exact Or.inl h.1.symm
      case someVal y =>
        cases y
        case vecVal xs =>
          simp only [walkField] at h
          cases hR : applyRetag tag vIdx stack with
          | none => simp only [hR] at h; exact Option.noConfusion h
          | some r =>
            obtain ⟨trR, stack1⟩ := r
            simp only [hR] at h
            cases hC : walkStatements types vis n xs stack1 with
            | none => simp only [hC] at h; exact Option.noConfusion h
            | some rc =>
              obtain ⟨trC, xs2, st2⟩ := rc
              simp only [hC, Option.some.injEq, Prod.mk.injEq] at h
              refine Or.inr ⟨trC, ?_⟩
              rw [← h.1, applyRetag_ne hv hR]
              rfl
        all_goals (simp only [walkField] at h; exact Option.noConfusion h)
      all_goals (simp only [walkField] at h; exact Option.noConfusion h)
    case vecStmt =>
      cases fv
      case vecVal xs =>
        simp only [walkField] at h
        cases hR : applyRetag tag vIdx stack with
        | none => simp only [hR] at h; exact Option.noConfusion h
        | some r =>
          obtain ⟨trR, stack1⟩ := r
          simp only [hR] at h
          cases hC : walkStatements types vis n xs stack1 with
          | none => simp only [hC] at h; exact Option.noConfusion h
          | some rc =>
            obtain ⟨trC, xs2, st2⟩ := rc
            simp only [hC, Option.some.injEq, Prod.mk.injEq] at h
            refine Or.inr ⟨trC, ?_⟩
            rw [← h.1, applyRetag_ne hv hR]
            rfl
      all_goals (simp only [walkField] at h; exact Option.noConfusion h)
    case vecPlain =>
      cases fv
      case vecVal xs =>
        simp only [walkField] at h
        cases hR : applyRetag tag vIdx stack with
        | none => simp only [hR] at h; exact Option.noConfusion h
        | some r =>
          obtain ⟨trR, stack1⟩ := r
          simp only [hR] at h
          cases hC : walkElems types vis n inner xs stack1 with
          | none => simp only [hC] at h; exact Option.noConfusion h
          | some rc =>
            obtain ⟨trC, xs2, st2⟩ := rc
            simp only [hC, Option.some.injEq, Prod.mk.injEq] at h
            refine Or.inr ⟨trC, ?_⟩
            rw [← h.1, applyRetag_ne hv hR]
            rfl
      all_goals (simp only [walkField] at h; exact Option.noConfusion h)
    case vecOpt =>
      cases fv
      case vecVal xs =>
        simp only [walkField] at h
        cases hR : applyRetag tag vIdx stack with
        | none => simp only [hR] at h; exact Option.noConfusion h
        | some r =>
          obtain ⟨trR, stack1⟩ := r
          simp only [hR] at h
          cases hC : walkOptElems types vis n inner xs stack1 with
          | none => simp only [hC] at h; exact Option.noConfusion h
          | some rc =>
            obtain ⟨trC, xs2, st2⟩ := rc
            simp only [hC, Option.some.injEq, Prod.mk.injEq] at h
            refine Or.inr ⟨trC, ?_⟩
            rw [← h.1, applyRetag_ne hv hR]
            rfl
      all_goals (simp only [walkField] at h; exact Option.noConfusion h)
    case box =>
      cases fv
      case boxVal x =>
        simp only [walkField] at h
        cases hR : applyRetag tag vIdx stack with
        | none => simp only [hR] at h; exact Option.noConfusion h
        | some r =>
          obtain ⟨trR, stack1⟩ := r
          simp only [hR] at h
          cases hC : walkType types vis n inner x stack1 with
          | none => simp only [hC] at h; exact Option.noConfusion h
          | some rc =>
            obtain ⟨trC, x2, st2⟩ := rc
            simp only [hC, Option.some.injEq, Prod.mk.injEq] at h
            refine Or.inr ⟨trC, ?_⟩
            rw [← h.1, applyRetag_ne hv hR]
            rfl
      all_goals (simp only [walkField] at h; exact Option.noConfusion h)
    case plain =>
      simp only [walkField] at h
      cases hR : applyRetag tag vIdx stack with
      | none => simp only [hR] at h; exact Option.noConfusion h
      | some r =>
        obtain ⟨trR, stack1⟩ := r
        simp only [hR] at h
        cases hC : walkType types vis n inner fv stack1 with
        | none => simp only [hC] at h; exact Option.noConfusion h
        | some rc =>
          obtain ⟨trC, w2, st2⟩ := rc
          simp only [hC, Option.some.injEq, Prod.mk.injEq] at h
          refine Or.inr ⟨trC, ?_⟩
          rw [← h.1, applyRetag_ne hv hR]
          rfl

/-- The visited fields among a (catalogue field, stored value) pair list. -/
def visitedOfPairs (types : List TypeDef) (pairs : List (Field × Value)) : List Field :=
  (pairs.filter (fun p => isCatalogued types p.1.innerTypeName)).map Prod.fst

/-- Well-formedness of the per-field chunks of a struct walk's trace, indexed
by the visited position of the first listed field: position 0 (the field whose
tag was pushed) may contribute any trace; every later field either contributes
nothing (an absent `Option` field: no retag, no descent) or a trace beginning
with the retag to that field's own tag. -/
inductive ChunksOk (sName : String) : Nat → List Field → List (List Event) → Prop where
  | nil (vIdx : Nat) : ChunksOk sName vIdx [] []
  | consFirst (f : Field) (fs : List Field) (c : List Event) (chunks : List (List Event))
      (hrest : ChunksOk sName 1 fs chunks) :
      ChunksOk sName 0 (f :: fs) (c :: chunks)
  | consLater (vIdx : Nat) (f : Field) (fs : List Field) (c : List Event)
      (chunks : List (List Event))
      (hc : c = [] ∨ ∃ r, c = Event.retag (tagFor sName f.name) :: r)
      (hrest : ChunksOk sName (vIdx + 2) fs chunks) :
      ChunksOk sName (vIdx + 1) (f :: fs) (c :: chunks)

/-- Decomposition of the per-field code list's trace: one chunk per visited
field, in declaration order, each chunk internally push/pop balanced, with
every non-first chunk empty or retag-headed (`ChunksOk`). -/
lemma walkFieldsList_chunks (types : List TypeDef) (vis : Visitor) :
    ∀ (fuel : Nat) (sN : String) (pairs : List (Field × Value)) (vIdx : Nat)
      (stack : List Tag) (tr : List Event) (vals2 : List Value) (st : List Tag),
    walkFieldsList types vis fuel sN pairs vIdx stack = some (tr, vals2, st) →
    ∃ chunks : List (List Event), tr = chunks.flatten ∧
      ChunksOk sN vIdx (visitedOfPairs types pairs) chunks ∧
      ∀ c ∈ chunks, pushCount c = popCount c := by
  intro fuel
  induction fuel with
  | zero => intro sN pairs vIdx stack tr vals2 st h; exact Option.noConfusion h
  | succ n ih =>
    intro sN pairs vIdx stack tr vals2 st h
    cases pairs with
    | nil =>
      simp only [walkFieldsList, Option.some.injEq, Prod.mk.injEq] at h
      refine ⟨[], ?_, ?_, ?_⟩
      · simp [h.1.symm]
      · have : visitedOfPairs types ([] : List (Field × Value)) = [] := rfl
        rw [this]
        exact ChunksOk.nil vIdx
      · intro c hc; exact absurd hc (List.not_mem_nil c)
    | cons p rest =>
      obtain ⟨f, fv⟩ := p
      simp only [walkFieldsList] at h
      by_cases hc : isCatalogued types f.innerTypeName = true
      · rw [if_pos hc] at h
        cases hp : fieldPlan f.wrappers f.innerTypeName with
        | none => simp only [hp] at h; exact Option.noConfusion h
        | some plan =>
          simp only [hp] at h
          cases hF : walkField types vis n sN plan f.innerTypeName
              (tagFor sN f.name) vIdx fv stack with
          | none => simp only [hF] at h; exact Option.noConfusion h
          | some r1 =>
            obtain ⟨tr1, fv2, stack1⟩ := r1
            simp only [hF] at h
            cases h2 : walkFieldsList types vis n sN rest (vIdx + 1) stack1 with
            | none => simp only [h2] at h; exact Option.noConfusion h
            | some r2 =>
              obtain ⟨tr2, fvs2, stack2⟩ := r2
              simp only [h2, Option.some.injEq, Prod.mk.injEq] at h
              obtain ⟨hTr, _, _⟩ := h
              obtain ⟨chunks2, hFlat, hOk, hBal⟩ := ih sN rest (vIdx + 1) stack1 _ _ _ h2
              have hbal1 : pushCount tr1 = popCount tr1 :=
                ((stackPropAll_all types vis n).2.2.1 _ _ _ _ _ _ _ _ _ _ hF).2
              refine ⟨tr1 :: chunks2, ?_, ?_, ?_⟩
              · rw [← hTr, hFlat]; rfl
              · have hvis : visitedOfPairs types ((f, fv) :: rest) =
                    f :: visitedOfPairs types rest := by
                  simp [visitedOfPairs, List.filter_cons, hc]
                rw [hvis]
                cases vIdx with
                | zero => exact ChunksOk.consFirst f _ tr1 chunks2 hOk
                | succ k =>
                  exact ChunksOk.consLater k f _ tr1 chunks2
                    (walkField_trace_head (Nat.succ_ne_zero k) hF) hOk
              · intro c hcm
                rcases List.mem_cons.mp hcm with hce | hcm2
                · rw [hce]; exact hbal1
                · exact hBal c hcm2
      · rw [if_neg hc] at h
        cases h2 : walkFieldsList types vis n sN rest vIdx stack with
        | none => simp only [h2] at h; exact Option.noConfusion h
        | some r2 =>
          obtain ⟨tr2, fvs2, stack2⟩ := r2
          simp only [h2, Option.some.injEq, Prod.mk.injEq] at h
          obtain ⟨hTr, _, _⟩ := h
          obtain ⟨chunks2, hFlat, hOk, hBal⟩ := ih sN rest vIdx stack _ _ _ h2
          refine ⟨chunks2, ?_, ?_, hBal⟩
          · rw [← hTr, hFlat]
          · have hvis : visitedOfPairs types ((f, fv) :: rest) =
                visitedOfPairs types rest := by
              simp [visitedOfPairs, List.filter_cons, hc]
            rw [hvis]
            exact hOk

/-- Zipping a struct's fields with its stored values and keeping the visited
pairs yields exactly the visited fields, provided the lengths agree. -/
lemma visitedOfPairs_zip (types : List TypeDef) :
    ∀ (fs : List Field) (vals : List Value), vals.length = fs.length →
    visitedOfPairs types (fs.zip vals) =
      fs.filter (fun f => isCatalogued types f.innerTypeName) := by
  intro fs
  induction fs with
  | nil => intro vals _; simp [visitedOfPairs]
  | cons f fs ihf =>
    intro vals hLen
    cases vals with
    | nil => exact absurd hLen.symm (by simp)
    | cons v vs =>
      have hrec := ihf vs (by simpa using hLen)
      simp only [visitedOfPairs] at hrec
      cases hc : isCatalogued types f.innerTypeName <;>
        simp [visitedOfPairs, List.filter_cons, hc, hrec]

/-- A successful walk restores the ancestor stack and balances pushes with
pops. -/
lemma walkType_stack {types : List TypeDef} {vis : Visitor} {fuel : Nat}
    {tn : String} {v : Value} {stack : List Tag} {tr : List Event} {v2 : Value}
    {st : List Tag}
    (h : walkType types vis fuel tn v stack = some (tr, v2, st)) :
    st = stack ∧ pushCount tr = popCount tr :=
  (stackPropAll_all types vis fuel).1 _ _ _ _ _ _ h

/-- A successful walk with the default visitor returns the tree unchanged. -/
lemma walkType_value {types : List TypeDef} {fuel : Nat} {tn : String}
    {v : Value} {stack : List Tag} {tr : List Event} {v2 : Value} {st : List Tag}
    (h : walkType types defaultVisitor fuel tn v stack = some (tr, v2, st)) :
    v2 = v :=
  (valPropAll_all types fuel).1 _ _ _ _ _ _ h

/-- Sample catalogue: the spec's `Binary { left: Expr, right: Expr }` scenario,
with `Expr` a leaf struct. -/
def sampleBinaryTypes : List TypeDef :=
  [TypeDef.struct (StructType.mk "Binary"
     [Field.mk "left" [] "Expr", Field.mk "right" [] "Expr"]),
   TypeDef.struct (StructType.mk "Expr" [])]

/-- The `Binary` struct of `sampleBinaryTypes`. -/
def sampleBinaryStruct : StructType :=
  StructType.mk "Binary" [Field.mk "left" [] "Expr", Field.mk "right" [] "Expr"]

/-- A `Binary` node with two `Expr` children. -/
def sampleBinaryValue : Value :=
  Value.structVal "Binary" [Value.structVal "Expr" [], Value.structVal "Expr" []]

/-- The trace the generated code produces on `sampleBinaryValue`: enter, push
tag `Left`, left subtree, retag `Right`, right subtree, pop, exit. -/
def sampleBinaryTrace : List Event :=
  [Event.enter "Binary", Event.push (Tag.mk "Binary" "Left"),
   Event.enter "Expr", Event.exit "Expr",
   Event.retag (Tag.mk "Binary" "Right"),
   Event.enter "Expr", Event.exit "Expr", Event.pop, Event.exit "Binary"]

/-- C7: with the default (no-op) visitor, a traversal started on an empty
AncestorStack ends with the stack empty again, every push in the trace is
matched by a pop, and the tree is returned identical to its input (a null pass
is the identity). -/
theorem c7_null_pass_identity (types : List TypeDef) (fuel : Nat) (tn : String)
    (v : Value) (tr : List Event) (v2 : Value) (st : List Tag)
    (h : walkType types defaultVisitor fuel tn v [] = some (tr, v2, st)) :
    st = [] ∧ v2 = v ∧ pushCount tr = popCount tr := by
  obtain ⟨hst, hbal⟩ := walkType_stack h
  exact ⟨hst, walkType_value h, hbal⟩

/-- Witness for C7 on the `Binary` scenario. -/
theorem c7_null_pass_identity_witness :
    ([] : List Tag) = [] ∧ sampleBinaryValue = sampleBinaryValue ∧
      pushCount sampleBinaryTrace = popCount sampleBinaryTrace :=
  c7_null_pass_identity sampleBinaryTypes 5 "Binary" sampleBinaryValue
    sampleBinaryTrace sampleBinaryValue [] (by rfl)

/-- C1: the generated walk of a struct calls the enter hook first; if the
struct has at least one descendable (visited) field it then pushes exactly one
ancestor entry, tagged with the first such field, processes the visited fields
in declaration order — each later field's code either empty (absent optional
field) or beginning with an in-place retag to that field's tag, never a
pop+push pair — then pops exactly once and calls the exit hook last; the
per-field chunks are internally push/pop balanced, so the push and pop shown
are the only ones at this struct's level.  A struct with no descendable fields
produces only enter and exit: zero pushes and zero pops. -/
theorem c1_struct_walk_order (types : List TypeDef) (vis : Visitor) (fuel : Nat)
    (tn : String) (s : StructType) (v : Value) (stack : List Tag)
    (tr : List Event) (v2 : Value) (st : List Tag)
    (hFind : findType types tn = some (TypeDef.struct s))
    (h : walkType types vis (fuel + 1) tn v stack = some (tr, v2, st)) :
    (visitedFieldsOf types s = [] →
      tr = [Event.enter s.name, Event.exit s.name] ∧
        pushCount tr = 0 ∧ popCount tr = 0) ∧
    (∀ f0 fs, visitedFieldsOf types s = f0 :: fs →
      ∃ chunks : List (List Event),
        tr = Event.enter s.name :: Event.push (tagFor s.name f0.name) ::
          (chunks.flatten ++ [Event.pop, Event.exit s.name]) ∧
        ChunksOk s.name 0 (f0 :: fs) chunks ∧
        ∀ c ∈ chunks, pushCount c = popCount c) := by
  simp only [walkType, hFind] at h
  cases hE : vis.enterHook s.name v
  case structVal vn vals =>
    simp only [hE] at h
    by_cases hLen : vals.length = s.fields.length
    case neg => rw [if_neg hLen] at h; exact Option.noConfusion h
    rw [if_pos hLen] at h
    cases hV : visitedFieldsOf types s with
    | nil =>
      simp only [hV, Option.some.injEq, Prod.mk.injEq] at h
      obtain ⟨hTr, _, _⟩ := h
      subst hTr
      constructor
      · intro _
        exact ⟨rfl, by simp [pushCount, List.countP_cons, isPush],
          by simp [popCount, List.countP_cons, isPop]⟩
      · intro f0 fs hV2
        exact absurd hV2 (by simp)
    | cons f0' fs' =>
      simp only [hV] at h
      cases hL : walkFieldsList types vis fuel s.name (s.fields.zip vals) 0
          (tagFor s.name f0'.name :: stack) with
      | none => simp only [hL] at h; exact Option.noConfusion h
      | some r1 =>
        obtain ⟨trF, vals2, stack2⟩ := r1
        simp only [hL] at h
        cases stack2 with
        | nil => exact Option.noConfusion h
        | cons t2 stack3 =>
          simp only [Option.some.injEq, Prod.mk.injEq] at h
          obtain ⟨hTr, _, _⟩ := h
          constructor
          · intro hV2
            exact absurd hV2 (by simp)
          · intro f0 fs hV2
            injection hV2 with hf0 hfs
            obtain ⟨chunks, hFlat, hOk, hBal⟩ :=
              walkFieldsList_chunks types vis fuel s.name (s.fields.zip vals) 0
                (tagFor s.name f0'.name :: stack) trF vals2 (t2 :: stack3) hL
            refine ⟨chunks, ?_, ?_, hBal⟩
            · rw [← hTr, hFlat, hf0]
            · have hvp : visitedOfPairs types (s.fields.zip vals) = f0 :: fs := by
                rw [visitedOfPairs_zip types s.fields vals hLen]
                have hVu : s.fields.filter
                    (fun f => isCatalogued types f.innerTypeName) = f0' :: fs' := hV
                rw [hVu, hf0, hfs]
              rw [hvp] at hOk
              exact hOk
  all_goals (simp only [hE] at h; exact Option.noConfusion h)

/-- Witness for C1 on the `Binary` scenario. -/
theorem c1_struct_walk_order_witness :
    (visitedFieldsOf sampleBinaryTypes sampleBinaryStruct = [] →
      sampleBinaryTrace = [Event.enter sampleBinaryStruct.name,
        Event.exit sampleBinaryStruct.name] ∧
        pushCount sampleBinaryTrace = 0 ∧ popCount sampleBinaryTrace = 0) ∧
    (∀ f0 fs, visitedFieldsOf sampleBinaryTypes sampleBinaryStruct = f0 :: fs →
      ∃ chunks : List (List Event),
        sampleBinaryTrace = Event.enter sampleBinaryStruct.name ::
          Event.push (tagFor sampleBinaryStruct.name f0.name) ::
          (chunks.flatten ++ [Event.pop, Event.exit sampleBinaryStruct.name]) ∧
        ChunksOk sampleBinaryStruct.name 0 (f0 :: fs) chunks ∧
        ∀ c ∈ chunks, pushCount c = popCount c) :=
  c1_struct_walk_order sampleBinaryTypes defaultVisitor 4 "Binary"
    sampleBinaryStruct sampleBinaryValue [] sampleBinaryTrace sampleBinaryValue []
    (by rfl) (by rfl)

/-- Sample catalogue for the `Option<Vec<Statement>>` scenario: a leaf
`Statement` struct and a struct `S` whose only (and hence first) descendable
field `body` has type `Option<Vec<Statement>>`. -/
def sampleOptTypes : List TypeDef :=
  [TypeDef.struct (StructType.mk "Statement" []),
   TypeDef.struct (StructType.mk "S"
     [Field.mk "body" [Wrapper.option, Wrapper.vec] "Statement"])]

/-- Counterexample to C2 as stated: walking `S { body: None }` descends into
nothing and retags nothing, but the generated code still pushes one ancestor
entry — and that entry is tagged with the `None` field itself, because the
push for the first descendable field is emitted unconditionally, outside the
field's `if let Some`.  So "zero push operations for that field" fails when
the `None` optional field is the struct's first descendable field. -/
theorem c2_counterexample :
    walkType sampleOptTypes defaultVisitor 3 "S"
        (Value.structVal "S" [Value.noneVal]) []
      = some ([Event.enter "S", Event.push (Tag.mk "S" "Body"),
               Event.pop, Event.exit "S"],
              Value.structVal "S" [Value.noneVal], []) ∧
    Tag.mk "S" "Body" = tagFor "S" "body" ∧
    Event.push (tagFor "S" "body") ∈
      [Event.enter "S", Event.push (Tag.mk "S" "Body"),
       Event.pop, Event.exit "S"] := by
  refine ⟨by rfl, by rfl, ?_⟩
  simp [tagFor, snakeToCamel, snakeToCamelChars]

/-- C2 (amended): for every struct and every `Option`-wrapped descendable
field (including `Option<Vec<T>>`, `Option<Box<T>>` and bare `Option<T>`)
holding `None`, the field's own generated code performs zero descents, zero
retags, and in fact emits no event and leaves the stack untouched — the retag
sits inside the `if let Some`.  (The struct-level push is emitted
unconditionally before any field's code; when the `None` field happens to be
the first descendable field, that one push, tagged with it, still occurs, as
the counterexample shows.) -/
theorem c2_none_option_field (types : List TypeDef) (vis : Visitor) (fuel : Nat)
    (sN : String) (plan : FieldPlan) (inner : String) (tag : Tag) (vIdx : Nat)
    (stack : List Tag)
    (hplan : plan = FieldPlan.optPlain ∨ plan = FieldPlan.optBox ∨
      plan = FieldPlan.optVec ∨ plan = FieldPlan.optVecStmt) :
    walkField types vis (fuel + 1) sN plan inner tag vIdx Value.noneVal stack
      = some ([], Value.noneVal, stack) := by
  rcases hplan with h | h | h | h <;> subst h <;> rfl

/-- Witness for C2 (amended) on the `Option<Vec<Statement>>` field of `S`. -/
theorem c2_none_option_field_witness :
    walkField sampleOptTypes defaultVisitor 3 "S" FieldPlan.optVecStmt
        "Statement" (tagFor "S" "body") 0 Value.noneVal []
      = some ([], Value.noneVal, []) :=
  c2_none_option_field sampleOptTypes defaultVisitor 2 "S" FieldPlan.optVecStmt
    "Statement" (tagFor "S" "body") 0 []
    (Or.inr (Or.inr (Or.inr rfl)))

/-- Sample catalogue with a `Vec<Box<Expr>>` struct field (`Expr` is
catalogued, so the field is descendable and its wrapper chain reaches the
generator's wrapper dispatch). -/
def sampleVecBoxTypes : List TypeDef :=
  [TypeDef.struct (StructType.mk "Expr" []),
   TypeDef.struct (StructType.mk "S"
     [Field.mk "items" [Wrapper.vec, Wrapper.box] "Expr"])]

/-- The struct of `sampleVecBoxTypes` holding the `Vec<Box<Expr>>` field. -/
def sampleVecBoxStruct : StructType :=
  StructType.mk "S" [Field.mk "items" [Wrapper.vec, Wrapper.box] "Expr"]

/-- Counterexample to C3 as stated: a field of type `Sequence<BoxedRef<T>>`
(`Vec<Box<Expr>>`) is not handled by walking — the wrapper dispatch reaches
`assert(remainingWrappers.length === 0)` in the `Vec` branch and generation
aborts, so such fields are rejected, contrary to "alone or nested under the
other wrappers, not rejected". -/
theorem c3_counterexample :
    fieldPlan [Wrapper.vec, Wrapper.box] "Expr" = none ∧
    structWalkGenOk sampleVecBoxTypes sampleVecBoxStruct = false := by
  exact ⟨rfl, rfl⟩

/-- C3 (amended): a `BoxedRef` layer is supported alone (`Box<T>`) and nested
under `Option` (`Option<Box<T>>`): in both cases the generated walk
dereferences the box once and descends as if the field were `T`.  Nesting
`BoxedRef` under `Sequence` (`Vec<Box<T>>`) is not supported: it is rejected
by a generation-time assertion. -/
theorem c3_boxed_ref_handling (types : List TypeDef) (vis : Visitor) (fuel : Nat)
    (sN inner : String) (tag : Tag) (t : String) (x : Value) (stack : List Tag) :
    fieldPlan [Wrapper.box] t = some FieldPlan.box ∧
    fieldPlan [Wrapper.option, Wrapper.box] t = some FieldPlan.optBox ∧
    fieldPlan [Wrapper.vec, Wrapper.box] t = none ∧
    (walkField types vis (fuel + 1) sN FieldPlan.box inner tag 0
        (Value.boxVal x) stack
      = (walkType types vis fuel inner x stack).map
          (fun r => (r.1, Value.boxVal r.2.1, r.2.2))) ∧
    (walkField types vis (fuel + 1) sN FieldPlan.optBox inner tag 0
        (Value.someVal (Value.boxVal x)) stack
      = (walkType types vis fuel inner x stack).map
          (fun r => (r.1, Value.someVal (Value.boxVal r.2.1), r.2.2))) := by
  refine ⟨rfl, rfl, rfl, ?_, ?_⟩ <;>
    (cases hC : walkType types vis fuel inner x stack with
     | none => simp [walkField, applyRetag, hC]
     | some rc => obtain ⟨trC, x2, st2⟩ := rc; simp [walkField, applyRetag, hC])

/-- C10: the generated walk of an enum performs no push, retag or pop of its
own: its whole trace is the enter hook, the trace of exactly one dispatched
walk call (made with the ancestor stack passed through unchanged), and the
exit hook; the dispatched call also returns the final stack.  Hence while an
enum's payload is walked, the top-of-stack entry is still whatever the nearest
enclosing struct walk set. -/
theorem c10_enum_walk_no_stack_ops (types : List TypeDef) (vis : Visitor)
    (fuel : Nat) (tn : String) (e : EnumType) (v : Value) (stack : List Tag)
    (tr : List Event) (v2 : Value) (st : List Tag)
    (hFind : findType types tn = some (TypeDef.enum e))
    (h : walkType types vis (fuel + 1) tn v stack = some (tr, v2, st)) :
    st = stack ∧
    ∃ (inner : List Event) (target : String) (varg vres : Value),
      tr = Event.enter e.name :: (inner ++ [Event.exit e.name]) ∧
      walkType types vis fuel target varg stack = some (inner, vres, st) := by
  refine ⟨(walkType_stack h).1, ?_⟩
  simp only [walkType, hFind] at h
  cases hE : vis.enterHook e.name v
  case enumVal vn variantName payload =>
    simp only [hE] at h
    cases hFv : e.variants.find? (fun vr => vr.name = variantName) with
    | some variant =>
      simp only [hFv] at h
      by_cases hCat : isCatalogued types variant.innerTypeName = true
      case neg => rw [if_neg hCat] at h; exact Option.noConfusion h
      rw [if_pos hCat] at h
      cases hW : variant.wrappers with
      | nil =>
        simp only [hW] at h
        cases hC : walkType types vis fuel variant.innerTypeName payload stack with
        | none => simp only [hC] at h; exact Option.noConfusion h
        | some rc =>
          obtain ⟨trP, p2, st2⟩ := rc
          simp only [hC, Option.some.injEq, Prod.mk.injEq] at h
          obtain ⟨hTr, _, hSt⟩ := h
          exact ⟨trP, variant.innerTypeName, payload, p2, hTr.symm, hSt ▸ hC⟩
      | cons w ws =>
        cases w with
        | box =>
          cases ws with
          | nil =>
            cases payload with
            | structVal a b => simp only [hW] at h; exact Option.noConfusion h
            | enumVal a b c => simp only [hW] at h; exact Option.noConfusion h
            | someVal y => simp only [hW] at h; exact Option.noConfusion h
            | noneVal => simp only [hW] at h; exact Option.noConfusion h
            | vecVal ys => simp only [hW] at h; exact Option.noConfusion h
            | terminal => simp only [hW] at h; exact Option.noConfusion h
            | boxVal x =>
              simp only [hW] at h
              cases hC : walkType types vis fuel variant.innerTypeName x stack with
              | none => simp only [hC] at h; exact Option.noConfusion h
              | some rc =>
                obtain ⟨trP, x2, st2⟩ := rc
                simp only [hC, Option.some.injEq, Prod.mk.injEq] at h
                obtain ⟨hTr, _, hSt⟩ := h
                exact ⟨trP, variant.innerTypeName, x, x2, hTr.symm, hSt ▸ hC⟩
          | cons w2 ws2 => simp only [hW] at h; exact Option.noConfusion h
        | option => simp only [hW] at h; exact Option.noConfusion h
        | vec => simp only [hW] at h; exact Option.noConfusion h
    | none =>
      simp only [hFv] at h
      cases hA : enumInheritArms types (fuel + 1) e.inherits with
      | none => simp only [hA] at h; exact Option.noConfusion h
      | some arms =>
        simp only [hA] at h
        cases hFB : arms.find? (fun a => a.2.contains variantName) with
        | none => simp only [hFB] at h; exact Option.noConfusion h
        | some arm =>
          obtain ⟨baseName, names⟩ := arm
          simp only [hFB] at h
          cases hC : walkType types vis fuel baseName
              (Value.enumVal vn variantName payload) stack with
          | none => simp only [hC] at h; exact Option.noConfusion h
          | some rc =>
            obtain ⟨trB, vB, st2⟩ := rc
            simp only [hC, Option.some.injEq, Prod.mk.injEq] at h
            obtain ⟨hTr, _, hSt⟩ := h
            exact ⟨trB, baseName, Value.enumVal vn variantName payload, vB,
              hTr.symm, hSt ▸ hC⟩
  all_goals (simp only [hE] at h; exact Option.noConfusion h)

/-- Sample catalogue with an enum whose own variant name also occurs in an
inherited base: `E` lists `V1(Expr)` itself and inherits `Bse`, which also
lists `V1(Other)`. -/
def samplePrecTypes : List TypeDef :=
  [TypeDef.enum (EnumType.mk "E" [Variant.mk "V1" [] "Expr"] ["Bse"]),
   TypeDef.enum (EnumType.mk "Bse" [Variant.mk "V1" [] "Other"] []),
   TypeDef.struct (StructType.mk "Expr" []),
   TypeDef.struct (StructType.mk "Other" [])]

/-- C8: an enum value whose variant is explicitly listed among the enum's own
variants dispatches to that variant's own payload-type walk routine
(dereferencing a `Box` payload once), regardless of what the enum inherits —
in particular even if the same variant name also occurs in an inherited base's
variant set — because the own-variant match arms are emitted before all
inherited fallthrough arms. -/
theorem c8_own_variant_precedence (types : List TypeDef) (fuel : Nat)
    (tn : String) (e : EnumType) (vn0 variantName : String) (payload : Value)
    (stack : List Tag) (variant : Variant)
    (hFind : findType types tn = some (TypeDef.enum e))
    (hOwn : e.variants.find? (fun vr => vr.name = variantName) = some variant)
    (hCat : isCatalogued types variant.innerTypeName = true) :
    (variant.wrappers = [] →
      ∀ trP p2 st2,
        walkType types defaultVisitor fuel variant.innerTypeName payload stack
          = some (trP, p2, st2) →
        walkType types defaultVisitor (fuel + 1) tn
            (Value.enumVal vn0 variantName payload) stack
          = some (Event.enter e.name :: (trP ++ [Event.exit e.name]),
                  Value.enumVal vn0 variantName p2, st2)) ∧
    (∀ x, variant.wrappers = [Wrapper.box] → payload = Value.boxVal x →
      ∀ trP x2 st2,
        walkType types defaultVisitor fuel variant.innerTypeName x stack
          = some (trP, x2, st2) →
        walkType types defaultVisitor (fuel + 1) tn
            (Value.enumVal vn0 variantName payload) stack
          = some (Event.enter e.name :: (trP ++ [Event.exit e.name]),
                  Value.enumVal vn0 variantName (Value.boxVal x2), st2)) := by
  constructor
  · intro hW trP p2 st2 hC
    simp only [walkType, hFind, defaultVisitor_enterHook, hOwn, if_pos hCat,
      hW, hC, defaultVisitor_exitHook]
  · intro x hW hP trP x2 st2 hC
    subst hP
    simp only [walkType, hFind, defaultVisitor_enterHook, hOwn, if_pos hCat,
      hW, hC, defaultVisitor_exitHook]

/-- Witness for C8 on `samplePrecTypes`: `E::V1` dispatches to `Expr`'s walk,
not to `Bse`'s. -/
theorem c8_own_variant_precedence_witness :
    walkType samplePrecTypes defaultVisitor 2 "E"
        (Value.enumVal "E" "V1" (Value.structVal "Expr" [])) []
      = some (Event.enter "E" :: ([Event.enter "Expr", Event.exit "Expr"]
              ++ [Event.exit "E"]),
              Value.enumVal "E" "V1" (Value.structVal "Expr" []), []) :=
  (c8_own_variant_precedence samplePrecTypes 1 "E"
      (EnumType.mk "E" [Variant.mk "V1" [] "Expr"] ["Bse"]) "E" "V1"
      (Value.structVal "Expr" []) [] (Variant.mk "V1" [] "Expr")
      (by rfl) (by rfl) (by rfl)).1 rfl
    [Event.enter "Expr", Event.exit "Expr"] (Value.structVal "Expr" []) []
    (by rfl)

/-- Witness for C10 on `samplePrecTypes`. -/
theorem c10_enum_walk_no_stack_ops_witness :
    ([] : List Tag) = [] ∧
    ∃ (inner : List Event) (target : String) (varg vres : Value),
      (Event.enter "E" :: ([Event.enter "Expr", Event.exit "Expr"]
          ++ [Event.exit "E"]))
        = Event.enter "E" :: (inner ++ [Event.exit "E"]) ∧
      walkType samplePrecTypes defaultVisitor 1 target varg []
        = some (inner, vres, []) :=
  c10_enum_walk_no_stack_ops samplePrecTypes defaultVisitor 1 "E"
    (EnumType.mk "E" [Variant.mk "V1" [] "Expr"] ["Bse"])
    (Value.enumVal "E" "V1" (Value.structVal "Expr" [])) []
    (Event.enter "E" :: ([Event.enter "Expr", Event.exit "Expr"]
      ++ [Event.exit "E"]))
    (Value.enumVal "E" "V1" (Value.structVal "Expr" [])) []
    (by rfl) (by rfl)

/-- A catalogue entry found by name carries that name. -/
lemma findType_defName {types : List TypeDef} {n : String} {td : TypeDef}
    (h : findType types n = some td) : td.defName = n := by
  have := List.find?_some h
  exact of_decide_eq_true this

/-- Walking an enum-shaped value with the default visitor succeeds only by
eventually reaching the walk routine of an enum that lists the value's variant
among its own variants; that enum's enter hook appears in the trace. -/
lemma walkEnumVal_reaches_declaring (types : List TypeDef)
    (vn0 variantName : String) (payload : Value) :
    ∀ (fuel : Nat) (tn : String) (stack : List Tag) (tr : List Event)
      (v2 : Value) (st : List Tag),
    walkType types defaultVisitor fuel tn (Value.enumVal vn0 variantName payload)
        stack = some (tr, v2, st) →
    ∃ ed : EnumType, findType types ed.name = some (TypeDef.enum ed) ∧
      (ed.variants.find? (fun vr => vr.name = variantName)).isSome ∧
      Event.enter ed.name ∈ tr := by
  intro fuel
  induction fuel with
  | zero => intro tn stack tr v2 st h; exact Option.noConfusion h
  | succ n ih =>
    intro tn stack tr v2 st h
    simp only [walkType] at h
    cases hFind : findType types tn with
    | none => simp only [hFind] at h; exact Option.noConfusion h
    | some td =>
      cases td with
      | struct s =>
        simp only [hFind, defaultVisitor_enterHook] at h
        exact Option.noConfusion h
      | enum e =>
        have hname : e.name = tn := findType_defName hFind
        simp only [hFind, defaultVisitor_enterHook] at h
        cases hFv : e.variants.find? (fun vr => vr.name = variantName) with
        | some variant =>
          simp only [hFv] at h
          by_cases hCat : isCatalogued types variant.innerTypeName = true
          case neg => rw [if_neg hCat] at h; exact Option.noConfusion h
          rw [if_pos hCat] at h
          cases hW : variant.wrappers with
          | nil =>
            simp only [hW] at h
            cases hC : walkType types defaultVisitor n variant.innerTypeName
                payload stack with
            | none => simp only [hC] at h; exact Option.noConfusion h
            | some rc =>
              obtain ⟨trP, p2, st2⟩ := rc
              simp only [hC, Option.some.injEq, Prod.mk.injEq] at h
              refine ⟨e, by rw [hname]; exact hFind, by rw [hFv]; rfl, ?_⟩
              rw [← h.1]
              exact List.mem_cons_self _ _
          | cons w ws =>
            cases w with
            | box =>
              cases ws with
              | nil =>
                cases payload with
                | structVal a b => simp only [hW] at h; exact Option.noConfusion h
                | enumVal a b c => simp only [hW] at h; exact Option.noConfusion h
                | someVal y => simp only [hW] at h; exact Option.noConfusion h
                | noneVal => simp only [hW] at h; exact Option.noConfusion h
                | vecVal ys => simp only [hW] at h; exact Option.noConfusion h
                | terminal => simp only [hW] at h; exact Option.noConfusion h
                | boxVal x =>
                  simp only [hW] at h
                  cases hC : walkType types defaultVisitor n variant.innerTypeName
                      x stack with
                  | none => simp only [hC] at h; exact Option.noConfusion h
                  | some rc =>
                    obtain ⟨trP, x2, st2⟩ := rc
                    simp only [hC, Option.some.injEq, Prod.mk.injEq] at h
                    refine ⟨e, by rw [hname]; exact hFind, by rw [hFv]; rfl, ?_⟩
                    rw [← h.1]
                    exact List.mem_cons_self _ _
              | cons w2 ws2 => simp only [hW] at h; exact Option.noConfusion h
            | option => simp only [hW] at h; exact Option.noConfusion h
            | vec => simp only [hW] at h; exact Option.noConfusion h
        | none =>
          simp only [hFv] at h
          cases hA : enumInheritArms types (n + 1) e.inherits with
          | none => simp only [hA] at h; exact Option.noConfusion h
          | some arms =>
            simp only [hA] at h
            cases hFB : arms.find? (fun a => a.2.contains variantName) with
            | none => simp only [hFB] at h; exact Option.noConfusion h
            | some arm =>
              obtain ⟨baseName, names⟩ := arm
              simp only [hFB] at h
              cases hC : walkType types defaultVisitor n baseName
                  (Value.enumVal vn0 variantName payload) stack with
              | none => simp only [hC] at h; exact Option.noConfusion h
              | some rc =>
                obtain ⟨trB, vB, st2⟩ := rc
                simp only [hC, Option.some.injEq, Prod.mk.injEq] at h
                obtain ⟨ed, h1, h2, h3⟩ := ih baseName stack trB vB st2 hC
                refine ⟨ed, h1, h2, ?_⟩
                rw [← h.1]
                exact List.mem_cons_of_mem _ (List.mem_append_left _ h3)

/-- Sample catalogue with a transitive inheritance chain: `T` inherits `A`,
`A` inherits `B`, and only `B` declares the variant `VB(Expr)`. -/
def sampleInhTypes : List TypeDef :=
  [TypeDef.enum (EnumType.mk "T" [] ["A"]),
   TypeDef.enum (EnumType.mk "A" [] ["B"]),
   TypeDef.enum (EnumType.mk "B" [Variant.mk "VB" [] "Expr"] []),
   TypeDef.struct (StructType.mk "Expr" [])]

/-- C4: an enum value whose variant is not among the enum's own variants but
belongs to the transitively collected variant set of an inherited base
dispatches to that base's walk routine (the generated fallthrough arm), not to
a dispatch error; and any successful walk of such a value reaches the walk
routine of an enum that itself declares the variant (its enter hook is in the
trace).  The transitive variant sets come from `enumInheritArms`, the graph
closure over inherited enums. -/
theorem c4_inherited_variant_dispatch (types : List TypeDef) (fuel : Nat)
    (tn : String) (e : EnumType) (vn0 variantName : String) (payload : Value)
    (stack : List Tag) (arms : List (String × List String))
    (baseName : String) (names : List String)
    (hFind : findType types tn = some (TypeDef.enum e))
    (hOwn : e.variants.find? (fun vr => vr.name = variantName) = none)
    (hArms : enumInheritArms types (fuel + 1) e.inherits = some arms)
    (hFB : arms.find? (fun a => a.2.contains variantName) = some (baseName, names)) :
    (∀ trB vB stB,
      walkType types defaultVisitor fuel baseName
          (Value.enumVal vn0 variantName payload) stack = some (trB, vB, stB) →
      walkType types defaultVisitor (fuel + 1) tn
          (Value.enumVal vn0 variantName payload) stack
        = some (Event.enter e.name :: (trB ++ [Event.exit e.name]), vB, stB)) ∧
    (∀ tr v2 st,
      walkType types defaultVisitor (fuel + 1) tn
          (Value.enumVal vn0 variantName payload) stack = some (tr, v2, st) →
      ∃ ed : EnumType, findType types ed.name = some (TypeDef.enum ed) ∧
        (ed.variants.find? (fun vr => vr.name = variantName)).isSome ∧
        Event.enter ed.name ∈ tr) := by
  constructor
  · intro trB vB stB hC
    simp only [walkType, hFind, defaultVisitor_enterHook, hOwn, hArms, hFB, hC,
      defaultVisitor_exitHook]
  · intro tr v2 st h
    exact walkEnumVal_reaches_declaring types vn0 variantName payload
      (fuel + 1) tn stack tr v2 st h

/-- Witness for C4 on `sampleInhTypes`: `T`-shaped value of variant `VB`
(declared only by the transitively inherited `B`) dispatches through `A` to
`B`. -/
theorem c4_inherited_variant_dispatch_witness :
    (∀ trB vB stB,
      walkType sampleInhTypes defaultVisitor 4 "A"
          (Value.enumVal "T" "VB" (Value.structVal "Expr" [])) []
        = some (trB, vB, stB) →
      walkType sampleInhTypes defaultVisitor 5 "T"
          (Value.enumVal "T" "VB" (Value.structVal "Expr" [])) []
        = some (Event.enter "T" :: (trB ++ [Event.exit "T"]), vB, stB)) ∧
    (∀ tr v2 st,
      walkType sampleInhTypes defaultVisitor 5 "T"
          (Value.enumVal "T" "VB" (Value.structVal "Expr" [])) []
        = some (tr, v2, st) →
      ∃ ed : EnumType, findType sampleInhTypes ed.name
          = some (TypeDef.enum ed) ∧
        (ed.variants.find? (fun vr => vr.name = "VB")).isSome ∧
        Event.enter ed.name ∈ tr) :=
  c4_inherited_variant_dispatch sampleInhTypes 4 "T"
    (EnumType.mk "T" [] ["A"]) "T" "VB" (Value.structVal "Expr" []) []
    [("A", ["VB"])] "A" ["VB"] (by rfl) (by rfl) (by rfl) (by rfl)

/-- C5: for a tag produced for field index `gi` of a struct (the field must be
descendable for the tag to exist), the generated accessor surface contains one
accessor per *other* field — including fields of non-catalogued type — whose
result address is the struct's base address plus that field's statically
computed offset; and (with distinct field names) no accessor for the tag's own
field is generated. -/
theorem c5_sibling_accessor_addresses (offsets : String → String → Nat)
    (types : List TypeDef) (s : StructType) (gi : Nat) (g : Field)
    (hg : s.fields[gi]? = some g)
    (_hvis : isCatalogued types g.innerTypeName = true) :
    (∀ fi f, s.fields[fi]? = some f → fi ≠ gi →
      (f.name, offsets s.name f.name) ∈ accessorsFor offsets s gi ∧
      ∀ base, accessorAddr base (offsets s.name f.name)
        = base + offsets s.name f.name) ∧
    ((s.fields.map Field.name).Nodup →
      ∀ off, (g.name, off) ∉ accessorsFor offsets s gi) := by
  constructor
  · intro fi f hf hne
    constructor
    · apply List.mem_map.mpr
      refine ⟨(fi, f), ?_, rfl⟩
      apply List.mem_filter.mpr
      exact ⟨List.mk_mem_enum_iff_getElem?.mpr hf, decide_eq_true hne⟩
    · intro base; rfl
  · intro hnd off hmem
    obtain ⟨p, hpf, hpe⟩ := List.mem_map.mp hmem
    obtain ⟨j, b⟩ := p
    obtain ⟨henum, hflt⟩ := List.mem_filter.mp hpf
    have hj : s.fields[j]? = some b := List.mk_mem_enum_iff_getElem?.mp henum
    have hjne : j ≠ gi := of_decide_eq_true hflt
    have hbn : b.name = g.name := by
      have := congrArg Prod.fst hpe
      simpa using this
    have hmap1 : (s.fields.map Field.name)[j]? = some g.name := by
      rw [List.getElem?_map, hj]
      simp [hbn]
    have hmap2 : (s.fields.map Field.name)[gi]? = some g.name := by
      rw [List.getElem?_map, hg]
      rfl
    have hjlt : j < (s.fields.map Field.name).length := by
      rw [List.length_map]
      exact (List.getElem?_eq_some_iff.mp hj).1
    exact hjne (List.getElem?_inj hjlt hnd (hmap1.trans hmap2.symm))

/-- Witness for C5 on the `Binary` struct: from the tag for `left` (index 0),
the accessor for `right` (index 1) yields base + offset(`right`), and no
accessor for `left` exists. -/
theorem c5_sibling_accessor_addresses_witness :
    ((Field.mk "right" [] "Expr").name,
      (fun _ f => String.length f) "Binary"
        (Field.mk "right" [] "Expr").name)
      ∈ accessorsFor (fun _ f => String.length f) sampleBinaryStruct 0 ∧
    (∀ base, accessorAddr base ((fun _ f => String.length f) "Binary"
        (Field.mk "right" [] "Expr").name)
      = base + (fun _ f => String.length f) "Binary"
          (Field.mk "right" [] "Expr").name) := by
  exact (c5_sibling_accessor_addresses (fun _ f => String.length f)
    sampleBinaryTypes sampleBinaryStruct 0 (Field.mk "left" [] "Expr")
    (by rfl) (by rfl)).1 1 (Field.mk "right" [] "Expr") (by rfl) (by decide)

/-- A visited field with an unsupported wrapper chain makes the struct's walk
generation fail its assertion. -/
lemma structWalkGenOk_false {types : List TypeDef} {s : StructType} {f : Field}
    (hf : f ∈ s.fields) (hcat : isCatalogued types f.innerTypeName = true)
    (hplan : fieldPlan f.wrappers f.innerTypeName = none) :
    structWalkGenOk types s = false := by
  apply List.all_eq_false.mpr
  refine ⟨f, List.mem_filter.mpr ⟨hf, hcat⟩, ?_⟩
  simp [hplan]

/-- The worklist closure starting from a name that is not a catalogued enum
reports exactly that name missing. -/
lemma inheritClosureStep_missing_direct {types : List TypeDef} {b : String}
    {fuel : Nat} {ns ms : List String}
    (hb : ∀ ed : EnumType, findType types b ≠ some (TypeDef.enum ed))
    (h : inheritClosureStep types fuel [b] [] [] = some (ns, ms)) :
    ms = [b] := by
  cases fuel with
  | zero => exact Option.noConfusion h
  | succ fu =>
    cases hF : findType types b with
    | none =>
      simp only [inheritClosureStep, hF] at h
      cases fu with
      | zero => exact Option.noConfusion h
      | succ fu2 =>
        simp only [inheritClosureStep, Option.some.injEq, Prod.mk.injEq] at h
        exact h.2.symm
    | some td =>
      cases td with
      | struct s2 =>
        simp only [inheritClosureStep, hF] at h
        cases fu with
        | zero => exact Option.noConfusion h
        | succ fu2 =>
          simp only [inheritClosureStep, Option.some.injEq, Prod.mk.injEq] at h
          exact h.2.symm
      | enum ed => exact absurd hF (hb ed)

/-- If some directly inherited name is not a catalogued enum, the accumulated
missing list of the enum's arms is nonempty. -/
lemma collectEnumMissing_ne_nil {types : List TypeDef} {fuel : Nat} :
    ∀ (L : List String) (b : String) (m : List String), b ∈ L →
    (∀ ed : EnumType, findType types b ≠ some (TypeDef.enum ed)) →
    collectEnumMissing types fuel L = some m → m ≠ [] := by
  intro L
  induction L with
  | nil => intro b m hb _ _; exact absurd hb (List.not_mem_nil b)
  | cons a rest ihr =>
    intro b m hb hbad h
    simp only [collectEnumMissing] at h
    cases hs : inheritClosureStep types fuel [a] [] [] with
    | none => rw [hs] at h; exact Option.noConfusion h
    | some r1 =>
      obtain ⟨ns, ms⟩ := r1
      rw [hs] at h
      cases hr : collectEnumMissing types fuel rest with
      | none => simp only [hr] at h; exact Option.noConfusion h
      | some m2 =>
        simp only [hr, Option.some.injEq] at h
        rcases List.mem_cons.mp hb with hba | hbr
        · subst hba
          have hms : ms = [b] := inheritClosureStep_missing_direct hbad hs
          rw [← h, hms]
          exact List.append_ne_nil_of_left_ne_nil (by simp) m2
        · have hm2 : m2 ≠ [] := ihr b m2 hbr hbad hr
          rw [← h]
          intro hcontra
          exact hm2 (List.append_eq_nil.mp hcontra).2

/-- An enum directly inheriting a name that is not a catalogued enum fails its
walk generation assertion whenever the closure terminates. -/
lemma enumWalkGenOk_false {types : List TypeDef} {fuel : Nat} {e : EnumType}
    {b : String} {r : Bool} (hb : b ∈ e.inherits)
    (hbad : ∀ ed : EnumType, findType types b ≠ some (TypeDef.enum ed))
    (h : enumWalkGenOk types fuel e = some r) : r = false := by
  unfold enumWalkGenOk at h
  cases hc : collectEnumMissing types fuel e.inherits with
  | none => rw [hc] at h; exact Option.noConfusion h
  | some m =>
    rw [hc] at h
    simp only [Option.some.injEq] at h
    have hm : m ≠ [] := collectEnumMissing_ne_nil e.inherits b m hb hbad hc
    have hie : m.isEmpty = false := by
      cases m with
      | nil => exact absurd rfl hm
      | cons x xs => rfl
    rw [← h, hie]
    simp

/-- The whole-catalogue generation fold: membership of a failing type forces
the overall result to `false`. -/
lemma generateWalkOk_mem (types : List TypeDef) (fuel : Nat) :
    ∀ (L : List TypeDef) (r : Bool) (t : TypeDef), t ∈ L →
    (L.foldr (fun t acc =>
      match typeWalkGenOk types fuel t, acc with
      | some b, some c => some (b && c)
      | _, _ => none) (some true)) = some r →
    ∃ b, typeWalkGenOk types fuel t = some b ∧ (b = false → r = false) := by
  intro L
  induction L with
  | nil => intro r t ht _; exact absurd ht (List.not_mem_nil t)
  | cons a rest ihr =>
    intro r t ht h
    simp only [List.foldr_cons] at h
    cases ha : typeWalkGenOk types fuel a with
    | none => rw [ha] at h; exact Option.noConfusion h
    | some b1 =>
      rw [ha] at h
      cases hrest : (rest.foldr (fun t acc =>
          match typeWalkGenOk types fuel t, acc with
          | some b, some c => some (b && c)
          | _, _ => none) (some true)) with
      | none => simp only [hrest] at h; exact Option.noConfusion h
      | some c1 =>
        simp only [hrest, Option.some.injEq] at h
        rcases List.mem_cons.mp ht with hta | htr
        · subst hta
          exact ⟨b1, ha, fun hb => by rw [← h, hb]; simp⟩
        · obtain ⟨b2, hb2, himp⟩ := ihr c1 t htr hrest
          exact ⟨b2, hb2, fun hb => by rw [← h, himp hb]; simp⟩

/-- C6: a catalogue containing a struct whose visited field has an unsupported
wrapper combination, or an enum inheriting a name that is not a catalogued
enum, makes generation fail hard: the per-type generation reports failure (the
generator's assertion fires) and the whole-catalogue generation result, when
it terminates, is failure — nothing is silently skipped or deferred into
generated traversal code. -/
theorem c6_model_errors_abort_generation :
    (∀ (types : List TypeDef) (s : StructType) (f : Field),
      f ∈ s.fields → isCatalogued types f.innerTypeName = true →
      fieldPlan f.wrappers f.innerTypeName = none →
      structWalkGenOk types s = false ∧
      (TypeDef.struct s ∈ types → ∀ (fuel : Nat) (r : Bool),
        generateWalkOk types fuel = some r → r = false)) ∧
    (∀ (types : List TypeDef) (fuel : Nat) (e : EnumType) (b : String),
      b ∈ e.inherits →
      (∀ ed : EnumType, findType types b ≠ some (TypeDef.enum ed)) →
      (∀ r, enumWalkGenOk types fuel e = some r → r = false) ∧
      (TypeDef.enum e ∈ types → ∀ r,
        generateWalkOk types fuel = some r → r = false)) := by
  constructor
  · intro types s f hf hcat hplan
    have hs : structWalkGenOk types s = false := structWalkGenOk_false hf hcat hplan
    refine ⟨hs, ?_⟩
    intro hmem fuel r hg
    obtain ⟨b, hb, himp⟩ := generateWalkOk_mem types fuel types r _ hmem hg
    simp only [typeWalkGenOk, hs, Option.some.injEq] at hb
    exact himp hb.symm
  · intro types fuel e b hb hbad
    constructor
    · intro r hr
      exact enumWalkGenOk_false hb hbad hr
    · intro hmem r hg
      obtain ⟨b2, hb2, himp⟩ := generateWalkOk_mem types fuel types r _ hmem hg
      simp only [typeWalkGenOk] at hb2
      exact himp (enumWalkGenOk_false hb hbad hb2)

/-- Sample catalogue whose single enum inherits a name that is not catalogued. -/
def sampleBadInhTypes : List TypeDef :=
  [TypeDef.enum (EnumType.mk "E2" [] ["Missing"])]

/-- The enum of `sampleBadInhTypes`. -/
def sampleBadInhEnum : EnumType := EnumType.mk "E2" [] ["Missing"]

/-- Witness for C6 on a bad struct field (`Vec<Box<Expr>>`) and a bad enum
inheritance (`Missing` is not catalogued). -/
theorem c6_model_errors_abort_generation_witness :
    (structWalkGenOk sampleVecBoxTypes sampleVecBoxStruct = false ∧
      (TypeDef.struct sampleVecBoxStruct ∈ sampleVecBoxTypes →
        ∀ (fuel : Nat) (r : Bool),
          generateWalkOk sampleVecBoxTypes fuel = some r → r = false)) ∧
    ((∀ r, enumWalkGenOk sampleBadInhTypes 5 sampleBadInhEnum = some r →
        r = false) ∧
      (TypeDef.enum sampleBadInhEnum ∈ sampleBadInhTypes →
        ∀ r, generateWalkOk sampleBadInhTypes 5 = some r → r = false)) :=
  ⟨c6_model_errors_abort_generation.1 sampleVecBoxTypes sampleVecBoxStruct
      (Field.mk "items" [Wrapper.vec, Wrapper.box] "Expr")
      (by decide) (by rfl) (by rfl),
   c6_model_errors_abort_generation.2 sampleBadInhTypes 5 sampleBadInhEnum
      "Missing" (by decide)
      (fun ed h => Option.noConfusion
        ((show findType sampleBadInhTypes "Missing" = none from rfl) ▸ h))⟩

/-- C9: the `Ancestor` discriminants are assigned sequentially and compactly
at generation time: the list of (tag, discriminant) pairs starts with the root
`None` tag at 0, the field tags (taken in catalogue declaration order —
structs in catalogue order, visited fields in declaration order, which is how
`ancestorTagFields` is built) receive consecutive discriminants starting at 1,
so the discriminants are exactly `0, 1, ..., n`; the underlying representation
is `u8` exactly when the total number of distinct tags including the root is
at most 256, and widens to `u16` exactly when it exceeds 256. -/
theorem c9_discriminant_assignment (types : List TypeDef) :
    (ancestorEnumDiscriminants types).map Prod.snd
        = List.range ((ancestorTagFields types).length + 1) ∧
    (ancestorEnumDiscriminants types).head? = some (none, 0) ∧
    (ancestorEnumDiscriminants types).length
        = (ancestorTagFields types).length + 1 ∧
    (ancestorDiscriminantType types = "u8" ↔
      (ancestorEnumDiscriminants types).length ≤ 256) ∧
    (ancestorDiscriminantType types = "u16" ↔
      256 < (ancestorEnumDiscriminants types).length) ∧
    (∀ i : Nat, (ancestorEnumDiscriminants types)[i + 1]?
        = ((ancestorTagFields types)[i]?).map (fun t => (some t, i + 1))) := by
  have hlen : (ancestorEnumDiscriminants types).length
      = (ancestorTagFields types).length + 1 := by
    simp [ancestorEnumDiscriminants]
  refine ⟨?_, rfl, hlen, ?_, ?_, ?_⟩
  · simp only [ancestorEnumDiscriminants, List.map_cons, List.map_map,
      List.range_succ_eq_map]
    congr 1
    rw [← List.enum_map_fst (ancestorTagFields types), List.map_map]
    rfl
  · rw [hlen]
    unfold ancestorDiscriminantType
    by_cases hc : (ancestorTagFields types).length + 1 ≤ 256
    · simp [if_pos hc, hc]
    · simp [if_neg hc, hc]
  · rw [hlen]
    unfold ancestorDiscriminantType
    by_cases hc : (ancestorTagFields types).length + 1 ≤ 256
    · simp [if_pos hc]
      omega
    · simp [if_neg hc]
      omega
  · intro i
    simp only [ancestorEnumDiscriminants, List.getElem?_cons_succ,
      List.getElem?_map, List.getElem?_enum]
    cases (ancestorTagFields types)[i]? <;> rfl

/-- Witness for C9 on the `Binary` catalogue. -/
theorem c9_discriminant_assignment_witness :
    (ancestorEnumDiscriminants sampleBinaryTypes).map Prod.snd
        = List.range ((ancestorTagFields sampleBinaryTypes).length + 1) ∧
    (ancestorEnumDiscriminants sampleBinaryTypes).head? = some (none, 0) ∧
    (ancestorEnumDiscriminants sampleBinaryTypes).length
        = (ancestorTagFields sampleBinaryTypes).length + 1 ∧
    (ancestorDiscriminantType sampleBinaryTypes = "u8" ↔
      (ancestorEnumDiscriminants sampleBinaryTypes).length ≤ 256) ∧
    (ancestorDiscriminantType sampleBinaryTypes = "u16" ↔
      256 < (ancestorEnumDiscriminants sampleBinaryTypes).length) ∧
    (∀ i : Nat, (ancestorEnumDiscriminants sampleBinaryTypes)[i + 1]?
        = ((ancestorTagFields sampleBinaryTypes)[i]?).map
            (fun t => (some t, i + 1))) :=
  c9_discriminant_assignment sampleBinaryTypes

/-- Witness for C3 (amended) on concrete inputs. -/
theorem c3_boxed_ref_handling_witness :
    fieldPlan [Wrapper.box] "Expr" = some FieldPlan.box ∧
    fieldPlan [Wrapper.option, Wrapper.box] "Expr" = some FieldPlan.optBox ∧
    fieldPlan [Wrapper.vec, Wrapper.box] "Expr" = none ∧
    (walkField sampleBinaryTypes defaultVisitor 2 "S" FieldPlan.box "Expr"
        (tagFor "S" "b") 0 (Value.boxVal (Value.structVal "Expr" [])) []
      = (walkType sampleBinaryTypes defaultVisitor 1 "Expr"
            (Value.structVal "Expr" []) []).map
          (fun r => (r.1, Value.boxVal r.2.1, r.2.2))) ∧
    (walkField sampleBinaryTypes defaultVisitor 2 "S" FieldPlan.optBox "Expr"
        (tagFor "S" "b") 0
        (Value.someVal (Value.boxVal (Value.structVal "Expr" []))) []
      = (walkType sampleBinaryTypes defaultVisitor 1 "Expr"
            (Value.structVal "Expr" []) []).map
          (fun r => (r.1, Value.someVal (Value.boxVal r.2.1), r.2.2))) :=
  c3_boxed_ref_handling sampleBinaryTypes defaultVisitor 1 "S" "Expr"
    (tagFor "S" "b") "Expr" (Value.structVal "Expr" []) []

end OxcTraverse
